import Mathlib

/-!
Verification of the profile drag-and-drop utility (src/main.py).

The program's core logic is shallowly embedded here:

* strings are `List Char` (`Str`); Python `str.strip` / `str.lower` are
  modelled by `pyStrip` / `pyLower` (`str.lower` is modelled on the ASCII
  range, which is all the repository's data and rules exercise);
* the redaction policy `is_forbidden_key` embeds the pattern list
  `FORBIDDEN_KEY_PATTERNS = [r"^z$"]` together with the semantics of
  Python `re.search` for that one shipped pattern;
* `ProfileData` is the dataclass over an insertion-ordered string map,
  with `safe_items` / `forbidden_items` as the two list comprehensions;
* the `json` module calls (`json.loads`, `json.dumps`) are embedded as an
  executable JSON parser and serializer over the `Json` value type
  (numbers are modelled as arbitrary-precision integers; floats and
  lone-surrogate strings are outside the model);
* `.encode("utf-8")` / `.decode("utf-8")` are embedded as `utf8Encode` /
  `utf8Decode` over byte lists;
* the Qt widget callbacks are reframed as pure state transformers over
  `AppState` (profile, url field, list contents), exactly mirroring the
  assignments the handlers perform.
-/

/-! ## Characters and strings -/

abbrev Str := List Char

/-- Code points stripped by Python `str.strip()` (the `str.isspace` set). -/
def pyWS (c : Char) : Bool :=
  (9 ≤ c.toNat && c.toNat ≤ 13) || c.toNat = 32 || (28 ≤ c.toNat && c.toNat ≤ 31) ||
  c.toNat = 133 || c.toNat = 160 || c.toNat = 5760 ||
  (8192 ≤ c.toNat && c.toNat ≤ 8202) || c.toNat = 8232 || c.toNat = 8233 ||
  c.toNat = 8239 || c.toNat = 8287 || c.toNat = 12288

/-- Leading-whitespace removal, as in Python `str.lstrip()`. -/
def lstrip (s : Str) : Str := s.dropWhile pyWS

/-- Trailing-whitespace removal, as in Python `str.rstrip()`. -/
def rstrip (s : Str) : Str := (s.reverse.dropWhile pyWS).reverse

/-- Python `str.strip()`. -/
def pyStrip (s : Str) : Str := rstrip (lstrip s)

/-- Python `str.lower()` on the ASCII range (the only range the
program's key data exercises); other characters are left unchanged. -/
def pyLowerChar (c : Char) : Char :=
  if 65 ≤ c.toNat ∧ c.toNat ≤ 90 then Char.ofNat (c.toNat + 32) else c

/-- Python `str.lower()`. -/
def pyLower (s : Str) : Str := s.map pyLowerChar

/-! ## Redaction policy (src/main.py lines 19-25) -/

/-- The shipped pattern list `FORBIDDEN_KEY_PATTERNS = [r"^z$"]`. -/
def FORBIDDEN_KEY_PATTERNS : List Str := ["^z$".data]

/-- Semantics of Python `re.search(p, s)` (no flags) for the one shipped
pattern: `^` anchors at the start and `$` matches at the end of the
string or just before a trailing newline, so `re.search(r"^z$", s)`
succeeds exactly on `"z"` and `"z\n"`. Patterns other than the shipped
one are not interpreted by the model. -/
def reSearchMatches (pat : Str) (s : Str) : Bool :=
  if pat == "^z$".data then s == "z".data || s == ['z', '\n'] else false

/-- `is_forbidden_key` (src/main.py lines 23-25):
`k = (key or "").strip().lower()` (`key or ""` is the identity on
strings, it only converts `None` to `""`), then
`any(re.search(p, k) for p in FORBIDDEN_KEY_PATTERNS)`. -/
def is_forbidden_key (key : Str) : Bool :=
  FORBIDDEN_KEY_PATTERNS.any (fun p => reSearchMatches p (pyLower (pyStrip key)))

/-! ## ProfileData (src/main.py lines 33-50) -/

/-- The `ProfileData` dataclass: `raw : Dict[str, str]`, an
insertion-ordered map modelled as an ordered association list. -/
structure ProfileData where
  raw : List (Str × Str)
deriving DecidableEq

/-- `ProfileData.safe_items` (line 47):
`[(k, v) for k, v in self.raw.items() if not is_forbidden_key(k)]`. -/
def ProfileData.safe_items (p : ProfileData) : List (Str × Str) :=
  p.raw.filter (fun kv => !is_forbidden_key kv.1)

/-- `ProfileData.forbidden_items` (line 50):
`[(k, v) for k, v in self.raw.items() if is_forbidden_key(k)]`. -/
def ProfileData.forbidden_items (p : ProfileData) : List (Str × Str) :=
  p.raw.filter (fun kv => is_forbidden_key kv.1)

/-! ## JSON values (the `json` module as the program uses it) -/

/-- JSON values as `json.loads` produces them and `json.dumps` consumes
them. Numbers are modelled as arbitrary-precision integers (Python ints);
floating-point literals are outside the model. -/
inductive Json where
  | jstr (s : Str)
  | jint (n : Int)
  | jbool (b : Bool)
  | jnull
  | jarr (xs : List Json)
  | jobj (kvs : List (Str × Json))

/-- `v is None` on a decoded JSON value. -/
def Json.isNull : Json → Bool
  | .jnull => true
  | _ => false

/-- Whether a decoded JSON value is an object (`isinstance(data, dict)`). -/
def Json.isObj : Json → Bool
  | .jobj _ => true
  | _ => false

/-- A scalar JSON value: string, number, boolean or null. -/
def Json.isScalar : Json → Bool
  | .jarr _ => false
  | .jobj _ => false
  | _ => true

def lbrace : Char := Char.ofNat 123

def rbrace : Char := Char.ofNat 125

/-- Lowercase hex digit, as `"\u{0:04x}".format` produces. -/
def hexDigit (n : Nat) : Char :=
  if n < 10 then Char.ofNat (48 + n) else Char.ofNat (87 + n)

def hex4 (n : Nat) : Str :=
  [hexDigit (n / 4096 % 16), hexDigit (n / 256 % 16), hexDigit (n / 16 % 16), hexDigit (n % 16)]

/-- One character of `json.dumps` string output with the default
`ensure_ascii=True`: `"` and `\` and the C0 shorthands get two-character
escapes, other characters outside printable ASCII become `\uXXXX`
(a surrogate pair beyond the BMP), printable ASCII is copied. -/
def escapeChar (c : Char) : Str :=
  if c = '"' then ['\\', '"']
  else if c = '\\' then ['\\', '\\']
  else if c = '\n' then ['\\', 'n']
  else if c = '\r' then ['\\', 'r']
  else if c = '\t' then ['\\', 't']
  else if c.toNat = 8 then ['\\', 'b']
  else if c.toNat = 12 then ['\\', 'f']
  else if 32 ≤ c.toNat ∧ c.toNat ≤ 126 then [c]
  else if c.toNat < 65536 then '\\' :: 'u' :: hex4 c.toNat
  else
    ('\\' :: 'u' :: hex4 (55296 + (c.toNat - 65536) / 1024)) ++
    ('\\' :: 'u' :: hex4 (56320 + (c.toNat - 65536) % 1024))

/-- A JSON string literal: quote, escaped body, quote. -/
def renderStr (s : Str) : Str := '"' :: (s.map escapeChar).flatten ++ ['"']

/-- Decimal digits of a natural number, as Python `str` renders it. -/
def natToStr (n : Nat) : Str :=
  if h : n < 10 then [Char.ofNat (48 + n)]
  else natToStr (n / 10) ++ [Char.ofNat (48 + n % 10)]
decreasing_by exact Nat.div_lt_self (by omega) (by omega)

/-- Python `str` of an int (also `json.dumps` of an int). -/
def intToStr (n : Int) : Str :=
  if n < 0 then '-' :: natToStr n.natAbs else natToStr n.toNat

mutual
/-- `json.dumps` with the default separators `", "` and `": "` and
`ensure_ascii=True`, split into the value/array-tail/object-tail
renderers. -/
def dumpsJson : Json → Str
  | .jstr s => renderStr s
  | .jint n => intToStr n
  | .jbool true => "true".data
  | .jbool false => "false".data
  | .jnull => "null".data
  | .jarr xs => '[' :: dumpsElemsFirst xs
  | .jobj kvs => lbrace :: dumpsPairsFirst kvs

def dumpsElemsFirst : List Json → Str
  | [] => [']']
  | x :: t => dumpsJson x ++ dumpsElemsRest t

def dumpsElemsRest : List Json → Str
  | [] => [']']
  | x :: t => ',' :: ' ' :: (dumpsJson x ++ dumpsElemsRest t)

def dumpsPairsFirst : List (Str × Json) → Str
  | [] => [rbrace]
  | (k, v) :: t => renderStr k ++ ':' :: ' ' :: (dumpsJson v ++ dumpsPairsRest t)

def dumpsPairsRest : List (Str × Json) → Str
  | [] => [rbrace]
  | (k, v) :: t => ',' :: ' ' :: (renderStr k ++ ':' :: ' ' :: (dumpsJson v ++ dumpsPairsRest t))
end

/-! ## JSON parser (`json.loads`) -/

/-- The whitespace characters the JSON grammar skips between tokens. -/
def jsonWSChar (c : Char) : Bool := c = ' ' || c = '\t' || c = '\n' || c = '\r'

def skipWS (s : Str) : Str := s.dropWhile jsonWSChar

def hexVal (c : Char) : Option Nat :=
  if 48 ≤ c.toNat ∧ c.toNat ≤ 57 then some (c.toNat - 48)
  else if 97 ≤ c.toNat ∧ c.toNat ≤ 102 then some (c.toNat - 87)
  else if 65 ≤ c.toNat ∧ c.toNat ≤ 70 then some (c.toNat - 55)
  else none

/-- The two-character escapes `json.loads` accepts inside strings. -/
def escDecode (c : Char) : Option Char :=
  if c = '"' then some '"'
  else if c = '\\' then some '\\'
  else if c = '/' then some '/'
  else if c = 'b' then some (Char.ofNat 8)
  else if c = 'f' then some (Char.ofNat 12)
  else if c = 'n' then some '\n'
  else if c = 'r' then some '\r'
  else if c = 't' then some '\t'
  else none

/-- After a high surrogate `hi`: require a `\uXXXX` low surrogate and
recombine the pair into one supplementary-plane character. -/
def psbSurrogate (hi : Nat) (s : Str) : Option (Sum (Char × Str) Str) :=
  match s with
  | e2 :: u2 :: a2 :: b2 :: c2 :: d2 :: rest =>
    if e2 = '\\' ∧ u2 = 'u' then
      match hexVal a2, hexVal b2, hexVal c2, hexVal d2 with
      | some ha2, some hb2, some hc2, some hd2 =>
        if 56320 ≤ ha2 * 4096 + hb2 * 256 + hc2 * 16 + hd2 ∧
           ha2 * 4096 + hb2 * 256 + hc2 * 16 + hd2 < 57344 then
          some (Sum.inl (Char.ofNat (65536 + (hi - 55296) * 1024 +
            (ha2 * 4096 + hb2 * 256 + hc2 * 16 + hd2 - 56320)), rest))
        else none
      | _, _, _, _ => none
    else none
  | _ => none

/-- `\uXXXX` handling: four hex digits; a high surrogate hands over to
`psbSurrogate`, a lone low surrogate is rejected, anything else is a BMP
character. -/
def psbUnicode (s : Str) : Option (Sum (Char × Str) Str) :=
  match s with
  | a :: b :: c :: d :: rest =>
    match hexVal a, hexVal b, hexVal c, hexVal d with
    | some ha, some hb, some hc, some hd =>
      if 55296 ≤ ha * 4096 + hb * 256 + hc * 16 + hd ∧
         ha * 4096 + hb * 256 + hc * 16 + hd < 56320 then
        psbSurrogate (ha * 4096 + hb * 256 + hc * 16 + hd) rest
      else if 56320 ≤ ha * 4096 + hb * 256 + hc * 16 + hd ∧
              ha * 4096 + hb * 256 + hc * 16 + hd < 57344 then none
      else some (Sum.inl (Char.ofNat (ha * 4096 + hb * 256 + hc * 16 + hd), rest))
    | _, _, _, _ => none
  | _ => none

/-- One decoding step of the string-body scanner (`scanstring`, strict
mode), applied after the opening quote: either one decoded character
plus the remaining input (`Sum.inl`), the closing quote with the input
after it (`Sum.inr`), or a scan error. Surrogate `\uXXXX` pairs
recombine into one character. Unpaired surrogate escapes — which CPython
keeps as lone-surrogate code units, values a Lean `Char` cannot carry —
are rejected by the model; the program never produces them, so this only
narrows the accepted input set. Raw control characters are rejected as
in strict mode. -/
def psbStep (s : Str) : Option (Sum (Char × Str) Str) :=
  match s with
  | [] => none
  | c :: rest =>
    if c = '"' then some (Sum.inr rest)
    else if c = '\\' then
      match rest with
      | [] => none
      | e :: rest2 =>
        if e = 'u' then psbUnicode rest2
        else
          match escDecode e with
          | some ch => some (Sum.inl (ch, rest2))
          | none => none
    else if c.toNat < 32 then none
    else some (Sum.inl (c, rest))

/-- The string-body scan loop, fuel-indexed (each step consumes at least
one input character, so the wrapper below always supplies enough fuel). -/
def psbLoop : Nat → Str → Option (Str × Str)
  | 0, _ => none
  | fuel + 1, s =>
    match psbStep s with
    | none => none
    | some (Sum.inr rest) => some ([], rest)
    | some (Sum.inl (c, rest)) => (psbLoop fuel rest).map (fun p => (c :: p.1, p.2))

/-- The full string-body scanner: decoded characters plus the input
after the closing quote. -/
def parseStringBody (s : Str) : Option (Str × Str) := psbLoop (s.length + 1) s

def isDigitC (c : Char) : Bool := 48 ≤ c.toNat && c.toNat ≤ 57

/-- Input whose first character is not a decimal digit (so a digit run
ends exactly there). -/
def noLeadDigit (s : Str) : Bool :=
  match s with
  | [] => true
  | c :: _ => !isDigitC c

def takeDigits : Str → Nat → (Nat × Str)
  | [], acc => (acc, [])
  | c :: rest, acc =>
    if isDigitC c then takeDigits rest (acc * 10 + (c.toNat - 48)) else (acc, c :: rest)

/-- The integer part of the JSON number token `-?(0|[1-9][0-9]*)`: a
leading `0` is a complete token by itself (the grammar forbids leading
zeros). -/
def parseUIntTok : Str → Option (Nat × Str)
  | [] => none
  | c :: rest =>
    if c = '0' then some (0, rest)
    else if isDigitC c then some (takeDigits rest (c.toNat - 48))
    else none

def parseIntTok : Str → Option (Int × Str)
  | [] => none
  | c :: rest =>
    if c = '-' then (parseUIntTok rest).map (fun p => (-(p.1 : Int), p.2))
    else (parseUIntTok (c :: rest)).map (fun p => ((p.1 : Int), p.2))

/-- `eatLit lit s` consumes the literal characters `lit` from the front
of `s` (how the scanner recognizes `true`, `false`, `null`). -/
def eatLit : Str → Str → Option Str
  | [], s => some s
  | _ :: _, [] => none
  | c :: t, d :: s => if c = d then eatLit t s else none

mutual
/-- The recursive-descent scanner of `json.loads`, fuel-indexed so it is
structurally total; every recursive call spends one unit of fuel, and
the top-level entry supplies more fuel than any input can consume.
`parseValue` skips leading whitespace and dispatches on the first
character exactly as `py_make_scanner` does. -/
def parseValue : Nat → Str → Option (Json × Str)
  | 0, _ => none
  | fuel + 1, s0 =>
    match skipWS s0 with
    | [] => none
    | c :: rest =>
      if c = '"' then (parseStringBody rest).map (fun p => (Json.jstr p.1, p.2))
      else if c = lbrace then parseObjBody fuel rest
      else if c = '[' then parseArrBody fuel rest
      else
        match eatLit ("true".data) (c :: rest) with
        | some r => some (Json.jbool true, r)
        | none =>
          match eatLit ("false".data) (c :: rest) with
          | some r => some (Json.jbool false, r)
          | none =>
            match eatLit ("null".data) (c :: rest) with
            | some r => some (Json.jnull, r)
            | none => (parseIntTok (c :: rest)).map (fun p => (Json.jint p.1, p.2))

def parseObjBody : Nat → Str → Option (Json × Str)
  | 0, _ => none
  | fuel + 1, s =>
    match skipWS s with
    | [] => none
    | c :: rest =>
      if c = rbrace then some (Json.jobj [], rest)
      else (parseMembers fuel (c :: rest)).map (fun p => (Json.jobj p.1, p.2))

def parseMembers : Nat → Str → Option (List (Str × Json) × Str)
  | 0, _ => none
  | fuel + 1, s =>
    match skipWS s with
    | [] => none
    | c :: rest =>
      if c = '"' then
        match parseStringBody rest with
        | none => none
        | some (k, rest2) =>
          match skipWS rest2 with
          | [] => none
          | c2 :: rest3 =>
            if c2 = ':' then
              match parseValue fuel rest3 with
              | none => none
              | some (v, rest4) =>
                match skipWS rest4 with
                | [] => none
                | c3 :: rest5 =>
                  if c3 = ',' then
                    (parseMembers fuel rest5).map (fun p => ((k, v) :: p.1, p.2))
                  else if c3 = rbrace then some ([(k, v)], rest5)
                  else none
            else none
      else none

def parseArrBody : Nat → Str → Option (Json × Str)
  | 0, _ => none
  | fuel + 1, s =>
    match skipWS s with
    | [] => none
    | c :: rest =>
      if c = ']' then some (Json.jarr [], rest)
      else (parseElems fuel (c :: rest)).map (fun p => (Json.jarr p.1, p.2))

def parseElems : Nat → Str → Option (List Json × Str)
  | 0, _ => none
  | fuel + 1, s =>
    match parseValue fuel s with
    | none => none
    | some (v, rest) =>
      match skipWS rest with
      | [] => none
      | c :: rest2 =>
        if c = ',' then (parseElems fuel rest2).map (fun p => (v :: p.1, p.2))
        else if c = ']' then some ([v], rest2)
        else none
end

/-- `json.loads`: skip whitespace, scan one value, require only
whitespace to remain ("Extra data" otherwise). -/
def jsonParse (text : Str) : Option Json :=
  match parseValue (text.length + 1) text with
  | none => none
  | some (v, rest) => if skipWS rest = [] then some v else none

/-! ## Python dict semantics over ordered association lists -/

def hasKey {α : Type} (d : List (Str × α)) (k : Str) : Bool :=
  d.any (fun kv => kv.1 == k)

/-- `d[k] = v` on a Python dict: an existing key keeps its position and
gets the new value; a new key is appended at the end. -/
def pyDictSet {α : Type} (d : List (Str × α)) (k : Str) (v : α) : List (Str × α) :=
  if hasKey d k then d.map (fun kv => if kv.1 == k then (k, v) else kv) else d ++ [(k, v)]

/-- Building a dict from a pair list (what `json.loads` does with the
parsed members): repeated insertion, so a duplicated key keeps its first
position and its last value. -/
def pyDictOfPairs {α : Type} (ps : List (Str × α)) : List (Str × α) :=
  ps.foldl (fun d kv => pyDictSet d kv.1 kv.2) []

/-- `d.get(k)`: the value at the first (only) occurrence of `k`. -/
def pyDictGet {α : Type} (d : List (Str × α)) (k : Str) : Option α :=
  (d.find? (fun kv => kv.1 == k)).map (fun kv => kv.2)

/-! ## Python `str()` / `repr()` of decoded JSON values -/

def hex2 (n : Nat) : Str := [hexDigit (n / 16 % 16), hexDigit (n % 16)]

def squote : Char := Char.ofNat 39

/-- One character of Python `repr` of a string, given the chosen quote
character `q`: backslash and the quote are backslash-escaped, `\n`, `\r`,
`\t` use their shorthands, other C0 controls and DEL become `\xXX`.
Non-printable characters above ASCII (which `repr` also escapes) are
modelled as printable and kept literal; nothing in the repository's data
reaches them. -/
def pyReprEscChar (q : Char) (c : Char) : Str :=
  if c = '\\' then ['\\', '\\']
  else if c = q then ['\\', q]
  else if c = '\n' then ['\\', 'n']
  else if c = '\r' then ['\\', 'r']
  else if c = '\t' then ['\\', 't']
  else if c.toNat < 32 ∨ c.toNat = 127 then '\\' :: 'x' :: hex2 c.toNat
  else [c]

/-- Python `repr` of a string: single-quoted, unless the string contains
a single quote and no double quote. -/
def pyReprStr (s : Str) : Str :=
  let q := if s.contains squote && !(s.contains '"') then '"' else squote
  q :: (s.map (pyReprEscChar q)).flatten ++ [q]

mutual
/-- Python `repr` of a value decoded from JSON (str/int/bool/None plus
nested lists and dicts with the separators `repr` uses). -/
def pyReprOfJson : Json → Str
  | .jstr s => pyReprStr s
  | .jint n => intToStr n
  | .jbool true => "True".data
  | .jbool false => "False".data
  | .jnull => "None".data
  | .jarr xs => '[' :: pyReprElems xs
  | .jobj kvs => lbrace :: pyReprPairs kvs

def pyReprElems : List Json → Str
  | [] => [']']
  | x :: t => pyReprOfJson x ++ pyReprElemsRest t

def pyReprElemsRest : List Json → Str
  | [] => [']']
  | x :: t => ',' :: ' ' :: (pyReprOfJson x ++ pyReprElemsRest t)

def pyReprPairs : List (Str × Json) → Str
  | [] => [rbrace]
  | (k, v) :: t => pyReprStr k ++ ':' :: ' ' :: (pyReprOfJson v ++ pyReprPairsRest t)

def pyReprPairsRest : List (Str × Json) → Str
  | [] => [rbrace]
  | (k, v) :: t => ',' :: ' ' :: (pyReprStr k ++ ':' :: ' ' :: (pyReprOfJson v ++ pyReprPairsRest t))
end

/-- Python `str()` of a value decoded from JSON: identity on strings,
decimal form of ints, `True`/`False`/`None` keywords, `repr` form for
lists and dicts. -/
def pyStrOfJson : Json → Str
  | .jstr s => s
  | .jint n => intToStr n
  | .jbool true => "True".data
  | .jbool false => "False".data
  | .jnull => "None".data
  | .jarr xs => pyReprOfJson (.jarr xs)
  | .jobj kvs => pyReprOfJson (.jobj kvs)

/-! ## ProfileData.from_json and MainWindow.populate_from_dict -/

/-- The dict comprehension on line 43:
`{str(k): "" if v is None else str(v) for k, v in data.items()}`
(keys produced by `json.loads` are already strings, so `str(k)` is the
identity). -/
def normalizeMapping (d : List (Str × Json)) : List (Str × Str) :=
  d.map (fun kv => (kv.1, if kv.2.isNull then [] else pyStrOfJson kv.2))

/-- The dict comprehension on line 282 (textually identical to line 43):
`{str(k): "" if v is None else str(v) for k, v in d.items()}`. -/
def populateMapping (d : List (Str × Json)) : List (Str × Str) :=
  d.map (fun kv => (kv.1, if kv.2.isNull then [] else pyStrOfJson kv.2))

/-- The two failure classes of `ProfileData.from_json` (lines 37-44):
`json.JSONDecodeError` escaping `json.loads`, and the explicit
`ValueError("JSON must be an object (key/value pairs).")`. -/
inductive ParseFailure where
  | decodeErr
  | notObject
deriving DecidableEq

/-- `ProfileData.from_json` on the text of the file at `path`
(lines 37-44): `json.loads`, the `isinstance(data, dict)` guard, then
the normalizing comprehension. -/
def ProfileData.from_json (text : Str) : Except ParseFailure ProfileData :=
  match jsonParse text with
  | none => .error .decodeErr
  | some (Json.jobj kvs) => .ok ⟨normalizeMapping (pyDictOfPairs kvs)⟩
  | some _ => .error .notObject

/-! ## json.dumps(..., indent=2) for the flat string dict the program saves -/

def dumpsIndentMembers : List (Str × Str) → Str
  | [] => []
  | [(k, v)] => '\n' :: ' ' :: ' ' :: (renderStr k ++ ':' :: ' ' :: renderStr v) ++ ['\n', rbrace]
  | (k, v) :: t =>
    '\n' :: ' ' :: ' ' :: (renderStr k ++ ':' :: ' ' :: renderStr v) ++ (',' :: dumpsIndentMembers t)

/-- `json.dumps(d, indent=2)` for a flat string-valued dict: members one
per line behind two spaces, comma-separated, closing brace on its own
line; the empty dict renders as the two braces. -/
def dumpsIndent2 (d : List (Str × Str)) : Str :=
  match d with
  | [] => [lbrace, rbrace]
  | _ => lbrace :: dumpsIndentMembers d

/-! ## UTF-8 (`str.encode("utf-8")` / `bytes.decode("utf-8")`) -/

def utf8EncodeChar (c : Char) : List Nat :=
  if c.toNat < 128 then [c.toNat]
  else if c.toNat < 2048 then [192 + c.toNat / 64, 128 + c.toNat % 64]
  else if c.toNat < 65536 then
    [224 + c.toNat / 4096, 128 + c.toNat / 64 % 64, 128 + c.toNat % 64]
  else
    [240 + c.toNat / 262144, 128 + c.toNat / 4096 % 64, 128 + c.toNat / 64 % 64, 128 + c.toNat % 64]

def utf8Encode (s : Str) : List Nat := (s.map utf8EncodeChar).flatten

/-- Continuation handling for a two-byte UTF-8 lead `b`. -/
def utf8Tail2 (b : Nat) : List Nat → Option (Char × List Nat)
  | b2 :: bs2 =>
    if 128 ≤ b2 ∧ b2 < 192 then some (Char.ofNat ((b - 192) * 64 + (b2 - 128)), bs2) else none
  | [] => none

/-- Continuation handling for a three-byte UTF-8 lead `b` (with the
overlong-form and surrogate checks strict decoding performs). -/
def utf8Tail3 (b : Nat) : List Nat → Option (Char × List Nat)
  | b2 :: b3 :: bs3 =>
    if (128 ≤ b2 ∧ b2 < 192) ∧ (128 ≤ b3 ∧ b3 < 192) ∧
       (b = 224 → 160 ≤ b2) ∧ (b = 237 → b2 < 160) then
      some (Char.ofNat ((b - 224) * 4096 + (b2 - 128) * 64 + (b3 - 128)), bs3)
    else none
  | _ => none

/-- Continuation handling for a four-byte UTF-8 lead `b` (with the
overlong-form and beyond-U+10FFFF checks strict decoding performs). -/
def utf8Tail4 (b : Nat) : List Nat → Option (Char × List Nat)
  | b2 :: b3 :: b4 :: bs4 =>
    if (128 ≤ b2 ∧ b2 < 192) ∧ (128 ≤ b3 ∧ b3 < 192) ∧ (128 ≤ b4 ∧ b4 < 192) ∧
       (b = 240 → 144 ≤ b2) ∧ (b = 244 → b2 < 144) then
      some (Char.ofNat ((b - 240) * 262144 + (b2 - 128) * 4096 + (b3 - 128) * 64 + (b4 - 128)),
        bs4)
    else none
  | _ => none

/-- Decode one character: dispatch on the lead byte (C0/C1 leads and
leads above F4 are invalid). -/
def utf8Step (b : Nat) (bs : List Nat) : Option (Char × List Nat) :=
  if b < 128 then some (Char.ofNat b, bs)
  else if b < 194 then none
  else if b < 224 then utf8Tail2 b bs
  else if b < 240 then utf8Tail3 b bs
  else if b < 245 then utf8Tail4 b bs
  else none

/-- The decode loop, fuel-indexed (each step consumes at least one
byte, so the wrapper below always supplies enough fuel). -/
def utf8Loop : Nat → List Nat → Option Str
  | 0, _ => none
  | _ + 1, [] => some []
  | fuel + 1, b :: bs =>
    match utf8Step b bs with
    | none => none
    | some (c, bs2) => (utf8Loop fuel bs2).map (fun t => c :: t)

/-- Strict UTF-8 decoding as `bytes.decode("utf-8")` performs it:
continuation bytes are range-checked and overlong forms, surrogates and
values beyond U+10FFFF are rejected. -/
def utf8Decode (l : List Nat) : Option Str := utf8Loop (l.length + 1) l

/-! ## Drag payload codec (DraggableList.startDrag / DropPad.dropEvent) -/

/-- One drag transfer (`QMimeData`): the plain-text channel and the
optional `application/x-profile-field` byte payload. -/
structure MimeData where
  text : Str
  profileField : Option (List Nat)

/-- The transfer `DraggableList.startDrag` builds (lines 69-74):
`mime.setText(value)` and the UTF-8 bytes of
`json.dumps({"key": key, "value": value})` under the custom format. -/
def startDragMime (key value : Str) : MimeData :=
  { text := value
    profileField := some (utf8Encode (dumpsJson
      (Json.jobj [("key".data, Json.jstr key), ("value".data, Json.jstr value)]))) }

/-- The decode phase of `DropPad.dropEvent` (lines 102-113): start from
`key = ""` and `value = md.text()`; when the custom format is present,
try UTF-8 decoding, `json.loads`, and the two `payload.get` reads; any
failure (missing format, bad bytes, bad JSON, or a non-dict payload,
whose `.get` raises `AttributeError`) is swallowed and leaves the
fallback pair. Values are returned as the Python objects the handler
holds, so the pair is `Json × Json`. -/
def dropDecode (md : MimeData) : Json × Json :=
  match md.profileField with
  | none => (Json.jstr [], Json.jstr md.text)
  | some bs =>
    match utf8Decode bs with
    | none => (Json.jstr [], Json.jstr md.text)
    | some s =>
      match jsonParse s with
      | some (Json.jobj kvs) =>
        ((pyDictGet (pyDictOfPairs kvs) ("key".data)).getD (Json.jstr []),
         (pyDictGet (pyDictOfPairs kvs) ("value".data)).getD (Json.jstr md.text))
      | _ => (Json.jstr [], Json.jstr md.text)

/-! ## MainWindow state and handlers -/

/-- The mutable widget state the handlers touch: the current profile,
the URL line edit, the two lists and the drop pad. -/
structure AppState where
  profile : Option ProfileData
  urlField : Str
  safeItemsList : List (Str × Str)
  forbiddenLines : List Str
  dropPadLines : List Str
deriving DecidableEq

/-- `MainWindow.clear_all` (lines 226-230). -/
def clear_all (st : AppState) : AppState :=
  { st with safeItemsList := [], forbiddenLines := [], dropPadLines := [], urlField := [] }

/-- `MainWindow.populate_profile` (lines 265-278): store the profile,
clear the widgets, restore the URL field from the `"url"` key
(`prof.raw.get("url", "").strip()`), then fill both lists. -/
def populate_profile (st : AppState) (prof : ProfileData) : AppState :=
  let st1 := { st with profile := some prof }
  let st2 := clear_all st1
  let st3 := { st2 with urlField := pyStrip ((pyDictGet prof.raw ("url".data)).getD []) }
  { st3 with
    safeItemsList := prof.safe_items
    forbiddenLines := prof.forbidden_items.map (fun kv => kv.1 ++ (": [excluded]".data)) }

/-- `MainWindow.populate_from_dict` (lines 281-283). -/
def populate_from_dict (st : AppState) (d : List (Str × Json)) : AppState :=
  populate_profile st ⟨populateMapping d⟩

/-- `MainWindow.load_json` (lines 255-263) applied to the text of the
chosen file: on success the parsed profile replaces the state; the
`except` arm only shows a message box and leaves the state alone. -/
def load_json (st : AppState) (text : Str) : AppState :=
  match ProfileData.from_json text with
  | .ok prof => populate_profile st prof
  | .error _ => st

/-- `MainWindow._current_profile_dict` (lines 232-239):
`data = dict(self.profile.raw) if self.profile else {}` then
`data["url"] = self.url_input.text().strip()`. -/
def current_profile_dict (st : AppState) : List (Str × Str) :=
  let data := match st.profile with | some p => p.raw | none => []
  pyDictSet data ("url".data) (pyStrip st.urlField)

/-- The file content `MainWindow.save_json` writes (line 249):
`json.dumps(data, indent=2)`. -/
def save_json_text (st : AppState) : Str := dumpsIndent2 (current_profile_dict st)

/-- `MainWindow.open_url` (lines 214-223): the URL handed to
`QDesktopServices.openUrl`, or `none` when the trimmed field is empty.
`https://` is prepended unless the lowercased text starts with
`http://` or `https://`. -/
def open_url (st : AppState) : Option Str :=
  let urlText := pyStrip st.urlField
  if urlText = [] then none
  else if (eatLit ("http://".data) (pyLower urlText)).isSome ||
          (eatLit ("https://".data) (pyLower urlText)).isSome then some urlText
  else some ("https://".data ++ urlText)

/-! ## Character lemmas -/

theorem charOfNat_toNat (n : Nat) (h : n.isValidChar) : (Char.ofNat n).toNat = n := by
  simp only [Char.ofNat, dif_pos h, Char.ofNatAux, Char.toNat, UInt32.toNat]
  rfl

theorem charToNat_inj (c : Char) (d : Char) (h : c.toNat = d.toNat) : c = d := by
  apply Char.ext
  apply UInt32.ext
  exact h

theorem charOfNat_toNat_self (c : Char) : Char.ofNat c.toNat = c := by
  apply charToNat_inj
  apply charOfNat_toNat
  exact c.valid

theorem dropWhile_head_false {α : Type} (p : α → Bool) :
    ∀ (l : List α) (c : α) (t : List α), l.dropWhile p = c :: t → p c = false := by
  intro l
  induction l with
  | nil => intro c t h; simp [List.dropWhile] at h
  | cons a l ih =>
    intro c t h
    by_cases hp : p a = true
    · rw [List.dropWhile_cons_of_pos hp] at h
      exact ih c t h
    · rw [List.dropWhile_cons_of_neg hp] at h
      cases h
      exact Bool.eq_false_iff.mpr hp

theorem rstrip_last_not_ws (s : Str) (c : Char) (t : Str)
    (h : rstrip s = t ++ [c]) : pyWS c = false := by
  have h2 : s.reverse.dropWhile pyWS = c :: t.reverse := by
    have := congrArg List.reverse h
    simpa [rstrip] using this
  exact dropWhile_head_false pyWS _ _ _ h2

theorem pyLowerChar_eq_newline (c : Char) (h : pyLowerChar c = '\n') : c = '\n' := by
  unfold pyLowerChar at h
  split at h
  · exfalso
    rename_i hr
    have := congrArg Char.toNat h
    rw [charOfNat_toNat (c.toNat + 32) (Or.inl (by omega))] at this
    have h10 : ('\n').toNat = 10 := by decide
    omega
  · exact h

/-! ## Redaction: claim C1 -/

theorem pyStrip_not_z_newline (k : Str) : pyLower (pyStrip k) ≠ ['z', '\n'] := by
  intro h
  cases hs : pyStrip k with
  | nil => rw [hs] at h; simp [pyLower] at h
  | cons a t =>
    cases t with
    | nil => rw [hs] at h; simp [pyLower] at h
    | cons b t2 =>
      cases t2 with
      | nil =>
        rw [hs] at h
        simp [pyLower] at h
        have hb : b = '\n' := pyLowerChar_eq_newline b h.2
        have hws : pyWS b = false := rstrip_last_not_ws (lstrip k) b [a] hs
        rw [hb] at hws
        simp [pyWS] at hws
      | cons c t3 => rw [hs] at h; simp [pyLower] at h

/-- C1: `is_forbidden_key k` is true exactly when the normalization of
`k` — strip whitespace, then lowercase — is the single character "z";
for every other key it is false. -/
theorem c1_is_forbidden_iff_normalized_z (k : Str) :
    is_forbidden_key k = true ↔ pyLower (pyStrip k) = "z".data := by
  unfold is_forbidden_key FORBIDDEN_KEY_PATTERNS reSearchMatches
  simp only [List.any_cons, List.any_nil, Bool.or_false, beq_self_eq_true, if_true]
  constructor
  · intro h
    rcases Bool.or_eq_true_iff.mp h with h1 | h2
    · exact eq_of_beq h1
    · exact absurd (eq_of_beq h2) (pyStrip_not_z_newline k)
  · intro h
    apply Bool.or_eq_true_iff.mpr
    exact Or.inl (beq_iff_eq.mpr h)

/-! ## Partition: claim C2 -/

/-- C2: `safe_items` and `forbidden_items` partition `fields`: each is a
subsequence of `raw` (so order matches insertion order), their
concatenation is a permutation of `raw`, every pair of `raw` is in one
of the two lists, and no key appears in both lists. -/
theorem c2_safe_forbidden_partition (r : ProfileData) :
    r.safe_items.Sublist r.raw ∧ r.forbidden_items.Sublist r.raw ∧
    (r.safe_items ++ r.forbidden_items).Perm r.raw ∧
    (∀ kv, kv ∈ r.raw ↔ (kv ∈ r.safe_items ∨ kv ∈ r.forbidden_items)) ∧
    (∀ k v1 v2, (k, v1) ∈ r.safe_items → (k, v2) ∈ r.forbidden_items → False) := by
  have hperm : (r.safe_items ++ r.forbidden_items).Perm r.raw := by
    have h := List.filter_append_perm (fun kv : Str × Str => !is_forbidden_key kv.1) r.raw
    simp only [Bool.not_not] at h
    exact h
  refine ⟨List.filter_sublist r.raw, List.filter_sublist r.raw, hperm, ?_, ?_⟩
  · intro kv
    rw [← hperm.mem_iff, List.mem_append]
  · intro k v1 v2 hs hf
    have h1 := (List.mem_filter.mp hs).2
    have h2 := (List.mem_filter.mp hf).2
    simp at h1 h2
    rw [h1] at h2
    exact absurd h2 (by decide)

/-! ## Parsing lemmas: tokens and strings -/

theorem skipWS_cons (c : Char) (l : Str) (h : jsonWSChar c = false) :
    skipWS (c :: l) = c :: l := by
  have h2 : ¬ jsonWSChar c = true := by simp [h]
  simp [skipWS, List.dropWhile_cons_of_neg h2]

theorem skipWS_all (w s : Str) (hw : ∀ c ∈ w, jsonWSChar c = true) :
    skipWS (w ++ s) = skipWS s := by
  induction w with
  | nil => simp
  | cons c t ih =>
    have hc : jsonWSChar c = true := hw c (by simp)
    simp only [List.cons_append, skipWS, List.dropWhile_cons_of_pos hc]
    exact ih (fun c hc2 => hw c (by simp [hc2]))

theorem eatLit_self (lit s : Str) : eatLit lit (lit ++ s) = some s := by
  induction lit with
  | nil => simp [eatLit]
  | cons c t ih => simp [eatLit, ih]

theorem eatLit_ne (c d : Char) (t s : Str) (h : c ≠ d) :
    eatLit (c :: t) (d :: s) = none := by
  simp [eatLit, h]

theorem eatLit_isSome_iff (lit s : Str) :
    (eatLit lit s).isSome = true ↔ ∃ u, s = lit ++ u := by
  induction lit generalizing s with
  | nil => simp [eatLit]
  | cons c t ih =>
    cases s with
    | nil => simp [eatLit]
    | cons d u =>
      by_cases h : c = d
      · subst h
        rw [show eatLit (c :: t) (c :: u) = eatLit t u from by simp [eatLit]]
        rw [ih u]
        constructor
        · rintro ⟨w, rfl⟩; exact ⟨w, rfl⟩
        · rintro ⟨w, hw⟩; exact ⟨w, by simpa using hw⟩
      · simp [eatLit, h, Ne.symm h]

theorem hexVal_hexDigit (d : Nat) (h : d < 16) : hexVal (hexDigit d) = some d := by
  interval_cases d <;> decide

theorem psbUnicode_hex (n : Nat) (rest : Str) (hlt : n < 65536) (hval : n < 55296 ∨ 57344 ≤ n) :
    psbUnicode (hex4 n ++ rest) = some (Sum.inl (Char.ofNat n, rest)) := by
  have ha := hexVal_hexDigit (n / 4096 % 16) (by omega)
  have hb := hexVal_hexDigit (n / 256 % 16) (by omega)
  have hc := hexVal_hexDigit (n / 16 % 16) (by omega)
  have hd := hexVal_hexDigit (n % 16) (by omega)
  simp only [hex4, List.cons_append, List.nil_append, psbUnicode, ha, hb, hc, hd]
  have e : n / 4096 % 16 * 4096 + n / 256 % 16 * 256 + n / 16 % 16 * 16 + n % 16 = n := by
    omega
  rw [if_neg (by omega), if_neg (by omega), e]

theorem psbSurrogate_hex (hi lo : Nat) (rest : Str) (hlo1 : 56320 ≤ lo) (hlo2 : lo < 57344) :
    psbSurrogate hi ('\\' :: 'u' :: (hex4 lo ++ rest)) =
      some (Sum.inl (Char.ofNat (65536 + (hi - 55296) * 1024 + (lo - 56320)), rest)) := by
  have ha := hexVal_hexDigit (lo / 4096 % 16) (by omega)
  have hb := hexVal_hexDigit (lo / 256 % 16) (by omega)
  have hc := hexVal_hexDigit (lo / 16 % 16) (by omega)
  have hd := hexVal_hexDigit (lo % 16) (by omega)
  simp only [hex4, List.cons_append, List.nil_append, psbSurrogate, ha, hb, hc, hd]
  have e : lo / 4096 % 16 * 4096 + lo / 256 % 16 * 256 + lo / 16 % 16 * 16 + lo % 16 = lo := by
    omega
  rw [if_pos (by simp), e, if_pos (by omega)]

theorem psbUnicode_hexpair (hi lo : Nat) (rest : Str)
    (hhi1 : 55296 ≤ hi) (hhi2 : hi < 56320) (hlo1 : 56320 ≤ lo) (hlo2 : lo < 57344) :
    psbUnicode (hex4 hi ++ ('\\' :: 'u' :: (hex4 lo ++ rest))) =
      some (Sum.inl (Char.ofNat (65536 + (hi - 55296) * 1024 + (lo - 56320)), rest)) := by
  have ha := hexVal_hexDigit (hi / 4096 % 16) (by omega)
  have hb := hexVal_hexDigit (hi / 256 % 16) (by omega)
  have hc := hexVal_hexDigit (hi / 16 % 16) (by omega)
  have hd := hexVal_hexDigit (hi % 16) (by omega)
  simp only [hex4, List.cons_append, List.nil_append, psbUnicode, ha, hb, hc, hd]
  have e : hi / 4096 % 16 * 4096 + hi / 256 % 16 * 256 + hi / 16 % 16 * 16 + hi % 16 = hi := by
    omega
  rw [e, if_pos (by omega)]
  exact psbSurrogate_hex hi lo rest hlo1 hlo2

theorem psbStep_bslash_u (s : Str) : psbStep ('\\' :: 'u' :: s) = psbUnicode s := rfl

theorem psbStep_escape (c : Char) (rest : Str) :
    psbStep (escapeChar c ++ rest) = some (Sum.inl (c, rest)) := by
  have hvalid : c.toNat < 55296 ∨ (57343 < c.toNat ∧ c.toNat < 1114112) := c.valid
  by_cases h1 : c = '"'
  · subst h1; rfl
  by_cases h2 : c = '\\'
  · subst h2; rfl
  by_cases h3 : c = '\n'
  · subst h3; rfl
  by_cases h4 : c = '\r'
  · subst h4; rfl
  by_cases h5 : c = '\t'
  · subst h5; rfl
  by_cases h6 : c.toNat = 8
  · have hc : c = Char.ofNat 8 := charToNat_inj c (Char.ofNat 8) (by rw [h6]; decide)
    subst hc; rfl
  by_cases h7 : c.toNat = 12
  · have hc : c = Char.ofNat 12 := charToNat_inj c (Char.ofNat 12) (by rw [h7]; decide)
    subst hc; rfl
  by_cases h8 : 32 ≤ c.toNat ∧ c.toNat ≤ 126
  · have he : escapeChar c = [c] := by
      simp [escapeChar, h1, h2, h3, h4, h5, h6, h7, h8]
    rw [he, List.cons_append, List.nil_append]
    have hstep : psbStep (c :: rest) =
        (if c = '"' then some (Sum.inr rest)
         else if c = '\\' then
           match rest with
           | [] => none
           | e :: rest2 =>
             if e = 'u' then psbUnicode rest2
             else match escDecode e with
               | some ch => some (Sum.inl (ch, rest2))
               | none => none
         else if c.toNat < 32 then none
         else some (Sum.inl (c, rest))) := rfl
    rw [hstep, if_neg h1, if_neg h2, if_neg (by omega)]
  by_cases h9 : c.toNat < 65536
  · have he : escapeChar c = '\\' :: 'u' :: hex4 c.toNat := by
      simp [escapeChar, h1, h2, h3, h4, h5, h6, h7, h8, h9]
    rw [he]
    rw [show (('\\' :: 'u' :: hex4 c.toNat) ++ rest) =
        '\\' :: 'u' :: (hex4 c.toNat ++ rest) by simp]
    rw [psbStep_bslash_u]
    rw [psbUnicode_hex c.toNat rest h9 (by omega)]
    rw [charOfNat_toNat_self]
  · have he : escapeChar c =
        ('\\' :: 'u' :: hex4 (55296 + (c.toNat - 65536) / 1024)) ++
        ('\\' :: 'u' :: hex4 (56320 + (c.toNat - 65536) % 1024)) := by
      simp [escapeChar, h1, h2, h3, h4, h5, h6, h7, h8, h9]
    rw [he]
    rw [show ((('\\' :: 'u' :: hex4 (55296 + (c.toNat - 65536) / 1024)) ++
        ('\\' :: 'u' :: hex4 (56320 + (c.toNat - 65536) % 1024))) ++ rest) =
        '\\' :: 'u' :: (hex4 (55296 + (c.toNat - 65536) / 1024) ++
          ('\\' :: 'u' :: (hex4 (56320 + (c.toNat - 65536) % 1024) ++ rest))) by simp]
    rw [psbStep_bslash_u]
    rw [psbUnicode_hexpair (55296 + (c.toNat - 65536) / 1024)
      (56320 + (c.toNat - 65536) % 1024) rest (by omega) (by omega) (by omega) (by omega)]
    have e : 65536 + (55296 + (c.toNat - 65536) / 1024 - 55296) * 1024 +
        (56320 + (c.toNat - 65536) % 1024 - 56320) = c.toNat := by omega
    rw [e, charOfNat_toNat_self]

theorem psbLoop_render (s : Str) : ∀ (fuel : Nat) (rest : Str), s.length < fuel →
    psbLoop fuel ((s.map escapeChar).flatten ++ '"' :: rest) = some (s, rest) := by
  induction s with
  | nil =>
    intro fuel rest h
    match fuel, h with
    | f + 1, _ => rfl
  | cons c t ih =>
    intro fuel rest h
    match fuel, h with
    | f + 1, h =>
      rw [show ((c :: t).map escapeChar).flatten ++ '"' :: rest =
          escapeChar c ++ ((t.map escapeChar).flatten ++ '"' :: rest) by simp]
      simp only [psbLoop, psbStep_escape]
      rw [ih f rest (by simp at h; omega)]
      rfl

theorem parseStringBody_render (s : Str) (rest : Str) :
    parseStringBody ((s.map escapeChar).flatten ++ '"' :: rest) = some (s, rest) := by
  apply psbLoop_render
  have : s.length ≤ ((s.map escapeChar).flatten).length := by
    induction s with
    | nil => simp
    | cons c t ih =>
      have h1 : 1 ≤ (escapeChar c).length := by
        unfold escapeChar
        repeat' split
        all_goals simp [hex4]
      simp only [List.map_cons, List.flatten_cons, List.length_append, List.length_cons]
      omega
  simp only [List.length_append, List.length_cons]
  omega

/-! ## Parsing lemmas: numbers -/

theorem digit_toNat (x : Nat) (h : x < 10) : (Char.ofNat (48 + x)).toNat = 48 + x :=
  charOfNat_toNat _ (Or.inl (by omega))

theorem isDigitC_digit (x : Nat) (h : x < 10) : isDigitC (Char.ofNat (48 + x)) = true := by
  simp [isDigitC, digit_toNat x h]
  omega

theorem natToStr_digits (n : Nat) : ∀ c ∈ natToStr n, isDigitC c = true := by
  induction n using Nat.strong_induction_on with
  | _ n ih =>
    intro c hc
    rw [natToStr] at hc
    split at hc
    · rename_i h
      simp at hc
      subst hc
      exact isDigitC_digit n h
    · rename_i h
      rw [List.mem_append] at hc
      rcases hc with hc | hc
      · exact ih (n / 10) (Nat.div_lt_self (by omega) (by omega)) c hc
      · simp at hc
        subst hc
        exact isDigitC_digit (n % 10) (by omega)

theorem natToStr_ne_nil (n : Nat) : natToStr n ≠ [] := by
  rw [natToStr]
  split
  · simp
  · simp

theorem natToStr_head_ne_zero (n : Nat) (hn : n ≠ 0) :
    ∀ c cs, natToStr n = c :: cs → c ≠ '0' := by
  induction n using Nat.strong_induction_on with
  | _ n ih =>
    intro c cs hc
    rw [natToStr] at hc
    split at hc
    · rename_i h
      simp at hc
      intro hc0
      have h1 : c.toNat = 48 + n := by rw [← hc.1]; exact digit_toNat n h
      rw [hc0] at h1
      have h0 : ('0').toNat = 48 := by decide
      omega
    · rename_i h
      cases h2 : natToStr (n / 10) with
      | nil => exact absurd h2 (natToStr_ne_nil _)
      | cons c2 cs2 =>
        rw [h2, List.cons_append] at hc
        have hd : n / 10 ≠ 0 := by omega
        have := ih (n / 10) (Nat.div_lt_self (by omega) (by omega)) hd c2 cs2 h2
        rw [List.cons.injEq] at hc
        rw [← hc.1]
        exact this

theorem takeDigits_spec (ds : Str) (hds : ∀ c ∈ ds, isDigitC c = true) (rest : Str)
    (hrest : noLeadDigit rest = true) (acc : Nat) :
    takeDigits (ds ++ rest) acc =
      (ds.foldl (fun a c => a * 10 + (c.toNat - 48)) acc, rest) := by
  induction ds generalizing acc with
  | nil =>
    simp only [List.nil_append, List.foldl_nil]
    cases rest with
    | nil => rfl
    | cons c r =>
      simp only [noLeadDigit, Bool.not_eq_true'] at hrest
      simp [takeDigits, hrest]
  | cons d ds ih =>
    have hd : isDigitC d = true := hds d (by simp)
    simp only [List.cons_append, takeDigits, hd, if_true, List.foldl_cons]
    exact ih (fun c hc => hds c (by simp [hc])) _

theorem natToStr_foldl (n : Nat) : ∀ acc : Nat,
    (natToStr n).foldl (fun a c => a * 10 + (c.toNat - 48)) acc =
      acc * 10 ^ (natToStr n).length + n := by
  induction n using Nat.strong_induction_on with
  | _ n ih =>
    intro acc
    rw [natToStr]
    split
    · rename_i h
      simp [digit_toNat n h]
    · rename_i h
      rw [List.foldl_append, ih (n / 10) (Nat.div_lt_self (by omega) (by omega)) acc]
      simp only [List.foldl_cons, List.foldl_nil, List.length_append, List.length_cons,
        List.length_nil]
      rw [digit_toNat (n % 10) (by omega)]
      have hp : 10 ^ ((natToStr (n / 10)).length + (0 + 1)) =
          10 ^ (natToStr (n / 10)).length * 10 := by
        rw [Nat.zero_add, Nat.pow_succ]
      rw [hp]
      have hassoc : acc * (10 ^ (natToStr (n / 10)).length * 10) =
          acc * 10 ^ (natToStr (n / 10)).length * 10 := by ring
      rw [hassoc]
      set M := acc * 10 ^ (natToStr (n / 10)).length
      omega

theorem parseUIntTok_natToStr (n : Nat) (rest : Str) (hrest : noLeadDigit rest = true) :
    parseUIntTok (natToStr n ++ rest) = some (n, rest) := by
  by_cases hn : n = 0
  · subst hn
    rw [show natToStr 0 = ['0'] from by rw [natToStr]; rfl]
    rfl
  · cases h : natToStr n with
    | nil => exact absurd h (natToStr_ne_nil n)
    | cons c cs =>
      have hcd : isDigitC c = true := natToStr_digits n c (by rw [h]; simp)
      have hc0 : c ≠ '0' := natToStr_head_ne_zero n hn c cs h
      show parseUIntTok (c :: (cs ++ rest)) = some (n, rest)
      rw [show parseUIntTok (c :: (cs ++ rest)) =
          (if c = '0' then some (0, cs ++ rest)
           else if isDigitC c then some (takeDigits (cs ++ rest) (c.toNat - 48))
           else none) from rfl]
      rw [if_neg hc0, if_pos hcd]
      rw [takeDigits_spec cs (fun x hx => natToStr_digits n x (by rw [h]; simp [hx])) rest hrest]
      have hfold := natToStr_foldl n 0
      rw [h] at hfold
      simp only [List.foldl_cons, Nat.zero_mul, Nat.zero_add] at hfold
      rw [hfold]

theorem parseIntTok_intToStr (n : Int) (rest : Str) (hrest : noLeadDigit rest = true) :
    parseIntTok (intToStr n ++ rest) = some (n, rest) := by
  by_cases hn : n < 0
  · rw [intToStr, if_pos hn, List.cons_append]
    rw [show parseIntTok ('-' :: (natToStr n.natAbs ++ rest)) =
        (parseUIntTok (natToStr n.natAbs ++ rest)).map (fun p => (-(p.1 : Int), p.2)) from by
      rw [parseIntTok]; rw [if_pos rfl]]
    rw [parseUIntTok_natToStr n.natAbs rest hrest]
    show some (-(n.natAbs : Int), rest) = some (n, rest)
    rw [show -(n.natAbs : Int) = n from by omega]
  · rw [intToStr, if_neg hn]
    cases h : natToStr n.toNat with
    | nil => exact absurd h (natToStr_ne_nil _)
    | cons c cs =>
      have hcd : isDigitC c = true := natToStr_digits n.toNat c (by rw [h]; simp)
      have hcm : c ≠ '-' := by
        intro he
        rw [he] at hcd
        simp [isDigitC] at hcd
      show parseIntTok (c :: (cs ++ rest)) = some (n, rest)
      rw [show parseIntTok (c :: (cs ++ rest)) =
          (if c = '-' then (parseUIntTok (cs ++ rest)).map (fun p => (-(p.1 : Int), p.2))
           else (parseUIntTok (c :: (cs ++ rest))).map (fun p => ((p.1 : Int), p.2))) from by
        rw [parseIntTok]]
      rw [if_neg hcm]
      rw [show c :: (cs ++ rest) = natToStr n.toNat ++ rest from by rw [h, List.cons_append]]
      rw [parseUIntTok_natToStr n.toNat rest hrest]
      show some ((n.toNat : Int), rest) = some (n, rest)
      rw [show ((n.toNat : Int)) = n from by omega]

/-! ## Parsing lemmas: values -/

theorem renderStr_append (s rest : Str) :
    renderStr s ++ rest = '"' :: ((s.map escapeChar).flatten ++ '"' :: rest) := by
  simp [renderStr]

theorem pv_quote (fuel : Nat) (X : Str) :
    parseValue (fuel+1) ('"' :: X) = (parseStringBody X).map (fun p => (Json.jstr p.1, p.2)) := rfl

theorem pv_obj (fuel : Nat) (X : Str) :
    parseValue (fuel+1) (lbrace :: X) = parseObjBody fuel X := rfl

theorem pv_true (fuel : Nat) (X : Str) :
    parseValue (fuel+1) ('t' :: 'r' :: 'u' :: 'e' :: X) = some (Json.jbool true, X) := rfl

theorem pv_false (fuel : Nat) (X : Str) :
    parseValue (fuel+1) ('f' :: 'a' :: 'l' :: 's' :: 'e' :: X) = some (Json.jbool false, X) := rfl

theorem pv_null (fuel : Nat) (X : Str) :
    parseValue (fuel+1) ('n' :: 'u' :: 'l' :: 'l' :: X) = some (Json.jnull, X) := rfl

theorem pv_ws1 (fuel : Nat) (c : Char) (s : Str) (h : jsonWSChar c = true) :
    parseValue (fuel+1) (c :: s) = parseValue (fuel+1) s := by
  rw [parseValue, parseValue,
    show skipWS (c :: s) = skipWS s from by simp [skipWS, List.dropWhile_cons_of_pos h]]

theorem pm_ws1 (fuel : Nat) (c : Char) (s : Str) (h : jsonWSChar c = true) :
    parseMembers (fuel+1) (c :: s) = parseMembers (fuel+1) s := by
  rw [parseMembers, parseMembers,
    show skipWS (c :: s) = skipWS s from by simp [skipWS, List.dropWhile_cons_of_pos h]]

theorem isDigit_facts (c : Char) (h : isDigitC c = true) :
    jsonWSChar c = false ∧ c ≠ '"' ∧ c ≠ lbrace ∧ c ≠ '[' ∧ c ≠ 't' ∧ c ≠ 'f' ∧ c ≠ 'n' := by
  refine ⟨?_, ?_, ?_, ?_, ?_, ?_, ?_⟩
  · by_contra hw
    rw [Bool.not_eq_false] at hw
    simp [jsonWSChar] at hw
    rcases hw with ((rfl | rfl) | rfl) | rfl <;> exact absurd h (by decide)
  · intro he; subst he; exact absurd h (by decide)
  · intro he; subst he; exact absurd h (by decide)
  · intro he; subst he; exact absurd h (by decide)
  · intro he; subst he; exact absurd h (by decide)
  · intro he; subst he; exact absurd h (by decide)
  · intro he; subst he; exact absurd h (by decide)

theorem parseValue_other (fuel : Nat) (c : Char) (rest : Str)
    (hws : jsonWSChar c = false) (h1 : c ≠ '"') (h2 : c ≠ lbrace) (h3 : c ≠ '[')
    (h4 : c ≠ 't') (h5 : c ≠ 'f') (h6 : c ≠ 'n') :
    parseValue (fuel+1) (c :: rest) =
      (parseIntTok (c :: rest)).map (fun p => (Json.jint p.1, p.2)) := by
  have ht : eatLit ("true".data) (c :: rest) = none := eatLit_ne _ _ _ _ (Ne.symm h4)
  have hf : eatLit ("false".data) (c :: rest) = none := eatLit_ne _ _ _ _ (Ne.symm h5)
  have hn : eatLit ("null".data) (c :: rest) = none := eatLit_ne _ _ _ _ (Ne.symm h6)
  rw [parseValue, skipWS_cons _ _ hws]
  simp only [if_neg h1, if_neg h2, if_neg h3, ht, hf, hn]

theorem parseValue_int (fuel : Nat) (n : Int) (rest : Str) (hrest : noLeadDigit rest = true) :
    parseValue (fuel+1) (intToStr n ++ rest) = some (Json.jint n, rest) := by
  have hshape : ∃ c cs, intToStr n = c :: cs ∧ (isDigitC c = true ∨ c = '-') := by
    rw [intToStr]
    split
    · exact ⟨'-', _, rfl, Or.inr rfl⟩
    · cases h : natToStr n.toNat with
      | nil => exact absurd h (natToStr_ne_nil _)
      | cons c cs => exact ⟨c, cs, rfl, Or.inl (natToStr_digits _ c (by rw [h]; simp))⟩
  obtain ⟨c, cs, hc, hcf⟩ := hshape
  have facts : jsonWSChar c = false ∧ c ≠ '"' ∧ c ≠ lbrace ∧ c ≠ '[' ∧
      c ≠ 't' ∧ c ≠ 'f' ∧ c ≠ 'n' := by
    rcases hcf with h | h
    · exact isDigit_facts c h
    · subst h; decide
  rw [hc, List.cons_append]
  rw [parseValue_other fuel c (cs ++ rest) facts.1 facts.2.1 facts.2.2.1 facts.2.2.2.1
    facts.2.2.2.2.1 facts.2.2.2.2.2.1 facts.2.2.2.2.2.2]
  rw [show c :: (cs ++ rest) = intToStr n ++ rest from by rw [hc, List.cons_append]]
  rw [parseIntTok_intToStr n rest hrest]
  rfl

theorem parseValue_scalar (v : Json) (fuel : Nat) (rest : Str) (hv : v.isScalar = true)
    (hrest : noLeadDigit rest = true) :
    parseValue (fuel+1) (dumpsJson v ++ rest) = some (v, rest) := by
  cases v with
  | jstr s =>
    show parseValue (fuel+1) (renderStr s ++ rest) = _
    rw [renderStr_append, pv_quote, parseStringBody_render]
    rfl
  | jint n => exact parseValue_int fuel n rest hrest
  | jbool b =>
    cases b with
    | true => exact pv_true fuel rest
    | false => exact pv_false fuel rest
  | jnull => exact pv_null fuel rest
  | jarr xs => simp [Json.isScalar] at hv
  | jobj kvs => simp [Json.isScalar] at hv

/-! ## Parsing lemmas: object members -/

theorem pm_full (fuel : Nat) (X k rest2 rest3 rest5 : Str) (c3 : Char) (v : Json) (rest4 : Str)
    (hps : parseStringBody X = some (k, rest2))
    (h2 : skipWS rest2 = ':' :: rest3)
    (hv : parseValue fuel rest3 = some (v, rest4))
    (h4 : skipWS rest4 = c3 :: rest5) :
    parseMembers (fuel+1) ('"' :: X) =
      (if c3 = ',' then (parseMembers fuel rest5).map (fun p => ((k, v) :: p.1, p.2))
       else if c3 = rbrace then some ([(k, v)], rest5)
       else none) := by
  rw [parseMembers, skipWS_cons _ _ (by decide)]
  simp only [hps, h2, hv, h4, if_pos]

theorem dumpsPairsRest_cons (k : Str) (v : Json) (t : List (Str × Json)) :
    dumpsPairsRest ((k, v) :: t) = ',' :: ' ' :: dumpsPairsFirst ((k, v) :: t) := rfl

theorem parseMembers_compact (t : List (Str × Json)) :
    ∀ (k : Str) (v : Json) (fuel : Nat) (rest : Str), v.isScalar = true →
      (∀ kv ∈ t, kv.2.isScalar = true) → 2 * t.length + 2 ≤ fuel →
      parseMembers fuel (dumpsPairsFirst ((k, v) :: t) ++ rest) = some ((k, v) :: t, rest) := by
  induction t with
  | nil =>
    intro k v fuel rest hv _ hfuel
    obtain ⟨f, rfl⟩ : ∃ f, fuel = (f + 1) + 1 := ⟨fuel - 2, by omega⟩
    have hshape : dumpsPairsFirst [(k, v)] ++ rest =
        '"' :: ((k.map escapeChar).flatten ++ '"' ::
          (':' :: ' ' :: (dumpsJson v ++ (rbrace :: rest)))) := by
      show (renderStr k ++ ':' :: ' ' :: (dumpsJson v ++ dumpsPairsRest [])) ++ rest = _
      simp [renderStr, dumpsPairsRest]
    rw [hshape]
    have hv2 : parseValue (f + 1) (' ' :: (dumpsJson v ++ (rbrace :: rest))) =
        some (v, rbrace :: rest) := by
      rw [pv_ws1 _ _ _ (by decide)]
      exact parseValue_scalar v f (rbrace :: rest) hv (by rfl)
    rw [pm_full (f + 1) _ k _ (' ' :: (dumpsJson v ++ (rbrace :: rest))) rest rbrace v
      (rbrace :: rest) (parseStringBody_render k _) (skipWS_cons _ _ (by decide)) hv2
      (skipWS_cons _ _ (by decide))]
    rw [if_neg (by decide), if_pos rfl]
  | cons x t2 ih =>
    intro k v fuel rest hv hsc hfuel
    obtain ⟨f, rfl⟩ : ∃ f, fuel = (f + 1) + 1 := ⟨fuel - 2, by omega⟩
    obtain ⟨k2, v2⟩ := x
    have hshape : dumpsPairsFirst ((k, v) :: (k2, v2) :: t2) ++ rest =
        '"' :: ((k.map escapeChar).flatten ++ '"' ::
          (':' :: ' ' :: (dumpsJson v ++
            (',' :: ' ' :: (dumpsPairsFirst ((k2, v2) :: t2) ++ rest))))) := by
      show (renderStr k ++ ':' :: ' ' :: (dumpsJson v ++ dumpsPairsRest ((k2, v2) :: t2))) ++
        rest = _
      rw [dumpsPairsRest_cons]
      simp [renderStr]
    rw [hshape]
    have hv2 : parseValue (f + 1)
        (' ' :: (dumpsJson v ++ (',' :: ' ' :: (dumpsPairsFirst ((k2, v2) :: t2) ++ rest)))) =
        some (v, ',' :: ' ' :: (dumpsPairsFirst ((k2, v2) :: t2) ++ rest)) := by
      rw [pv_ws1 _ _ _ (by decide)]
      exact parseValue_scalar v f _ hv (by rfl)
    rw [pm_full (f + 1) _ k _ _ (' ' :: (dumpsPairsFirst ((k2, v2) :: t2) ++ rest)) ',' v _
      (parseStringBody_render k _) (skipWS_cons _ _ (by decide)) hv2
      (skipWS_cons _ _ (by decide))]
    rw [if_pos rfl]
    rw [pm_ws1 _ _ _ (by decide)]
    rw [ih k2 v2 (f + 1) rest (hsc (k2, v2) (by simp)) (fun kv hkv => hsc kv (by simp [hkv]))
      (by simp at hfuel ⊢; omega)]
    rfl

/-! ## Parsing lemmas: whole objects -/

theorem renderStr_length (s : Str) : 2 ≤ (renderStr s).length := by
  simp [renderStr]

theorem dumpsPairsFirst_length (kvs : List (Str × Json)) :
    2 * kvs.length + 1 ≤ (dumpsPairsFirst kvs).length := by
  induction kvs with
  | nil => simp [dumpsPairsFirst]
  | cons x t ih =>
    obtain ⟨k, v⟩ := x
    show 2 * (t.length + 1) + 1 ≤
      (renderStr k ++ ':' :: ' ' :: (dumpsJson v ++ dumpsPairsRest t)).length
    have hr := renderStr_length k
    cases t with
    | nil =>
      rw [show dumpsPairsRest ([] : List (Str × Json)) = [rbrace] from rfl]
      simp only [List.length_append, List.length_cons, List.length_nil]
      omega
    | cons x2 t2 =>
      obtain ⟨k2, v2⟩ := x2
      rw [dumpsPairsRest_cons]
      simp only [List.length_append, List.length_cons] at ih ⊢
      omega

theorem dumpsPairsFirst_cons_shape (k : Str) (v : Json) (t : List (Str × Json)) (rest : Str) :
    dumpsPairsFirst ((k, v) :: t) ++ rest =
      '"' :: ((k.map escapeChar).flatten ++
        ('"' :: ':' :: ' ' :: (dumpsJson v ++ dumpsPairsRest t)) ++ rest) := by
  show (renderStr k ++ ':' :: ' ' :: (dumpsJson v ++ dumpsPairsRest t)) ++ rest = _
  simp [renderStr]

theorem parseObjBody_dumps (kvs : List (Str × Json)) (fuel : Nat) (rest : Str)
    (hsc : ∀ kv ∈ kvs, kv.2.isScalar = true) (hfuel : 2 * kvs.length + 2 ≤ fuel + 1) :
    parseObjBody (fuel + 1) (dumpsPairsFirst kvs ++ rest) = some (Json.jobj kvs, rest) := by
  cases kvs with
  | nil => rfl
  | cons x t =>
    obtain ⟨k, v⟩ := x
    rw [dumpsPairsFirst_cons_shape]
    rw [parseObjBody]
    have hsw := skipWS_cons '"' ((k.map escapeChar).flatten ++
      ('"' :: ':' :: ' ' :: (dumpsJson v ++ dumpsPairsRest t)) ++ rest) (by decide)
    simp only [hsw]
    rw [if_neg (show ('"' : Char) ≠ rbrace from by decide)]
    rw [show ('"' :: ((k.map escapeChar).flatten ++
        ('"' :: ':' :: ' ' :: (dumpsJson v ++ dumpsPairsRest t)) ++ rest)) =
        dumpsPairsFirst ((k, v) :: t) ++ rest from (dumpsPairsFirst_cons_shape k v t rest).symm]
    obtain ⟨f, rfl⟩ : ∃ f, fuel = f + 1 := ⟨fuel - 1, by simp at hfuel; omega⟩
    rw [parseMembers_compact t k v (f + 1) rest (hsc (k, v) (by simp))
      (fun kv hkv => hsc kv (by simp [hkv])) (by simp at hfuel ⊢; omega)]
    rfl

theorem jsonParse_dumpsFlat (kvs : List (Str × Json))
    (hsc : ∀ kv ∈ kvs, kv.2.isScalar = true) :
    jsonParse (dumpsJson (Json.jobj kvs)) = some (Json.jobj kvs) := by
  rw [show dumpsJson (Json.jobj kvs) = lbrace :: dumpsPairsFirst kvs from rfl]
  rw [jsonParse]
  have hlen : (lbrace :: dumpsPairsFirst kvs).length = (dumpsPairsFirst kvs).length + 1 := by
    simp
  rw [hlen]
  rw [pv_obj ((dumpsPairsFirst kvs).length + 1) (dumpsPairsFirst kvs)]
  have hb := dumpsPairsFirst_length kvs
  obtain ⟨f, hf⟩ : ∃ f, (dumpsPairsFirst kvs).length + 1 = f + 1 :=
    ⟨(dumpsPairsFirst kvs).length, rfl⟩
  rw [hf]
  rw [show dumpsPairsFirst kvs = dumpsPairsFirst kvs ++ [] from (List.append_nil _).symm]
  rw [parseObjBody_dumps kvs f [] hsc (by omega)]
  rfl

/-! ## UTF-8 round trip -/

theorem utf8Step_enc (c : Char) (X : List Nat) :
    ∃ b tail, utf8EncodeChar c = b :: tail ∧ utf8Step b (tail ++ X) = some (c, X) := by
  have hvalid : c.toNat < 55296 ∨ (57343 < c.toNat ∧ c.toNat < 1114112) := c.valid
  by_cases h1 : c.toNat < 128
  · refine ⟨c.toNat, [], by simp [utf8EncodeChar, h1], ?_⟩
    rw [List.nil_append, utf8Step, if_pos h1, charOfNat_toNat_self]
  · by_cases h2 : c.toNat < 2048
    · refine ⟨192 + c.toNat / 64, [128 + c.toNat % 64], by simp [utf8EncodeChar, h1, h2], ?_⟩
      rw [List.cons_append, List.nil_append, utf8Step,
        if_neg (by omega), if_neg (by omega), if_pos (by omega)]
      rw [utf8Tail2, if_pos ⟨by omega, by omega⟩]
      rw [show (192 + c.toNat / 64 - 192) * 64 + (128 + c.toNat % 64 - 128) = c.toNat from by
        omega]
      rw [charOfNat_toNat_self]
    · by_cases h3 : c.toNat < 65536
      · refine ⟨224 + c.toNat / 4096, [128 + c.toNat / 64 % 64, 128 + c.toNat % 64],
          by simp [utf8EncodeChar, h1, h2, h3], ?_⟩
        rw [List.cons_append, List.cons_append, List.nil_append, utf8Step,
          if_neg (by omega), if_neg (by omega), if_neg (by omega), if_pos (by omega)]
        rw [utf8Tail3, if_pos ⟨⟨by omega, by omega⟩, ⟨by omega, by omega⟩,
          by intro h; omega, by intro h; omega⟩]
        rw [show (224 + c.toNat / 4096 - 224) * 4096 + (128 + c.toNat / 64 % 64 - 128) * 64 +
            (128 + c.toNat % 64 - 128) = c.toNat from by omega]
        rw [charOfNat_toNat_self]
      · refine ⟨240 + c.toNat / 262144,
          [128 + c.toNat / 4096 % 64, 128 + c.toNat / 64 % 64, 128 + c.toNat % 64],
          by simp [utf8EncodeChar, h1, h2, h3], ?_⟩
        rw [List.cons_append, List.cons_append, List.cons_append, List.nil_append, utf8Step,
          if_neg (by omega), if_neg (by omega), if_neg (by omega), if_neg (by omega),
          if_pos (by omega)]
        rw [utf8Tail4, if_pos ⟨⟨by omega, by omega⟩, ⟨by omega, by omega⟩, ⟨by omega, by omega⟩,
          by intro h; omega, by intro h; omega⟩]
        rw [show (240 + c.toNat / 262144 - 240) * 262144 + (128 + c.toNat / 4096 % 64 - 128) *
            4096 + (128 + c.toNat / 64 % 64 - 128) * 64 + (128 + c.toNat % 64 - 128) =
            c.toNat from by omega]
        rw [charOfNat_toNat_self]

theorem utf8Loop_encode (s : Str) : ∀ (fuel : Nat), s.length < fuel →
    utf8Loop fuel ((s.map utf8EncodeChar).flatten) = some s := by
  induction s with
  | nil =>
    intro fuel h
    match fuel, h with
    | f + 1, _ => rfl
  | cons c t ih =>
    intro fuel h
    match fuel, h with
    | f + 1, h =>
      obtain ⟨b, tail, henc, hstep⟩ := utf8Step_enc c ((t.map utf8EncodeChar).flatten)
      rw [show ((c :: t).map utf8EncodeChar).flatten =
          b :: (tail ++ (t.map utf8EncodeChar).flatten) from by simp [henc]]
      rw [utf8Loop]
      rw [hstep]
      show (utf8Loop f ((t.map utf8EncodeChar).flatten)).map (fun x => c :: x) = some (c :: t)
      rw [ih f (by simp at h; omega)]
      rfl

theorem utf8EncodeChar_length (c : Char) : (utf8EncodeChar c).length ≤ 4 := by
  unfold utf8EncodeChar
  repeat' split
  all_goals simp

theorem utf8Decode_encode (s : Str) : utf8Decode (utf8Encode s) = some s := by
  apply utf8Loop_encode
  show s.length < ((s.map utf8EncodeChar).flatten).length + 1
  have : s.length ≤ ((s.map utf8EncodeChar).flatten).length := by
    induction s with
    | nil => simp
    | cons c t ih =>
      have h1 : 1 ≤ (utf8EncodeChar c).length := by
        unfold utf8EncodeChar
        repeat' split
        all_goals simp
      simp only [List.map_cons, List.flatten_cons, List.length_append, List.length_cons]
      omega
  omega

/-! ## Dict lemmas -/

theorem pyDictGet_nil {α : Type} (k : Str) : pyDictGet ([] : List (Str × α)) k = none := rfl

theorem pyDictGet_cons_hit {α : Type} (x : Str × α) (t : List (Str × α)) (k : Str)
    (h : (x.1 == k) = true) : pyDictGet (x :: t) k = some x.2 := by
  simp only [pyDictGet, List.find?]
  rw [h]
  rfl

theorem pyDictGet_cons_miss {α : Type} (x : Str × α) (t : List (Str × α)) (k : Str)
    (h : (x.1 == k) = false) : pyDictGet (x :: t) k = pyDictGet t k := by
  simp only [pyDictGet, List.find?]
  rw [h]

theorem hasKey_false_iff {α : Type} (d : List (Str × α)) (k : Str) :
    hasKey d k = false ↔ ∀ kv ∈ d, kv.1 ≠ k := by
  rw [show (hasKey d k = false) ↔ ¬(hasKey d k = true) from by simp]
  rw [hasKey, List.any_eq_true]
  push_neg
  constructor
  · intro h kv hkv
    have := h kv hkv
    simpa using this
  · intro h kv hkv
    simpa using h kv hkv

theorem pyDictSet_fresh {α : Type} (d : List (Str × α)) (k : Str) (v : α)
    (h : hasKey d k = false) : pyDictSet d k v = d ++ [(k, v)] := by
  rw [pyDictSet, if_neg (by simp [h])]

theorem foldl_pyDictSet {α : Type} (ps : List (Str × α)) :
    ∀ acc : List (Str × α), ((acc.map Prod.fst ++ ps.map Prod.fst).Nodup) →
      ps.foldl (fun d kv => pyDictSet d kv.1 kv.2) acc = acc ++ ps := by
  induction ps with
  | nil => intro acc _; simp
  | cons x t ih =>
    intro acc h
    obtain ⟨k, v⟩ := x
    have hdisj : ∀ kv ∈ acc, kv.1 ≠ k := by
      intro kv hkv heq
      have hmem : k ∈ ((k, v) :: t).map Prod.fst := by
        rw [List.map_cons]
        exact List.mem_cons_self _ _
      exact (List.disjoint_of_nodup_append h) (List.mem_map_of_mem Prod.fst hkv)
        (heq ▸ hmem)
    have hk : hasKey acc k = false := (hasKey_false_iff acc k).mpr hdisj
    rw [List.foldl_cons]
    show ((t.foldl (fun d kv => pyDictSet d kv.1 kv.2) (pyDictSet acc k v))) = acc ++ (k, v) :: t
    rw [pyDictSet_fresh acc k v hk]
    rw [ih (acc ++ [(k, v)]) (by
      simp only [List.map_append, List.map_cons, List.map_nil] at h ⊢
      rw [List.append_assoc]
      exact h)]
    simp

theorem pyDictOfPairs_nodup {α : Type} (ps : List (Str × α))
    (h : (ps.map Prod.fst).Nodup) : pyDictOfPairs ps = ps := by
  rw [pyDictOfPairs, foldl_pyDictSet ps [] (by simpa using h)]
  simp

theorem pyDictGet_map_set {α : Type} (d : List (Str × α)) (k : Str) (v : α)
    (hk : hasKey d k = true) :
    pyDictGet (d.map (fun kv => if kv.1 == k then (k, v) else kv)) k = some v := by
  induction d with
  | nil => simp [hasKey] at hk
  | cons x t ih =>
    by_cases hx : x.1 == k
    · simp only [List.map_cons, if_pos hx]
      rw [pyDictGet_cons_hit _ _ _ (by simp)]
    · simp only [List.map_cons, if_neg hx]
      have hk2 : hasKey t k = true := by
        simp only [hasKey, List.any_cons] at hk
        rcases Bool.or_eq_true_iff.mp hk with h | h
        · exact absurd h (by simp [hx])
        · exact h
      rw [pyDictGet_cons_miss _ _ _ (by simpa using hx)]
      exact ih hk2

theorem pyDictGet_set_same {α : Type} (d : List (Str × α)) (k : Str) (v : α) :
    pyDictGet (pyDictSet d k v) k = some v := by
  rw [pyDictSet]
  split
  · rename_i hk
    exact pyDictGet_map_set d k v hk
  · rename_i hk
    rw [Bool.not_eq_true, hasKey_false_iff] at hk
    induction d with
    | nil =>
      rw [List.nil_append]
      rw [pyDictGet_cons_hit _ _ _ (by simp)]
    | cons x t ih =>
      rw [List.cons_append]
      rw [pyDictGet_cons_miss _ _ _ (by simp [hk x (by simp)])]
      exact ih (fun kv hkv => hk kv (by simp [hkv]))
  
theorem pyDictGet_set_other {α : Type} (d : List (Str × α)) (k : Str) (v : α) (k2 : Str)
    (h : k2 ≠ k) : pyDictGet (pyDictSet d k v) k2 = pyDictGet d k2 := by
  rw [pyDictSet]
  split
  · rename_i hk
    clear hk
    induction d with
    | nil => simp
    | cons x t ih =>
      by_cases hx : x.1 == k
      · have hx1 : x.1 = k := by simpa using hx
        simp only [List.map_cons, if_pos hx]
        rw [pyDictGet_cons_miss _ _ _ (by simp [Ne.symm h])]
        rw [pyDictGet_cons_miss _ _ _ (by simp [hx1, Ne.symm h])]
        exact ih
      · simp only [List.map_cons, if_neg hx]
        by_cases hx2 : x.1 == k2
        · rw [pyDictGet_cons_hit _ _ _ hx2, pyDictGet_cons_hit _ _ _ hx2]
        · rw [pyDictGet_cons_miss _ _ _ (by simpa using hx2)]
          rw [pyDictGet_cons_miss _ _ _ (by simpa using hx2)]
          exact ih
  · rename_i hk
    clear hk
    induction d with
    | nil =>
      rw [List.nil_append]
      rw [pyDictGet_cons_miss _ _ _ (by simp [Ne.symm h])]
    | cons x t ih =>
      by_cases hx2 : x.1 == k2
      · rw [List.cons_append]
        rw [pyDictGet_cons_hit _ _ _ hx2, pyDictGet_cons_hit _ _ _ hx2]
      · rw [List.cons_append]
        rw [pyDictGet_cons_miss _ _ _ (by simpa using hx2)]
        rw [pyDictGet_cons_miss _ _ _ (by simpa using hx2)]
        exact ih

/-! ## Parsing lemmas: the indent=2 save format -/

theorem skipWS_ws_cons (c : Char) (l : Str) (h : jsonWSChar c = true) :
    skipWS (c :: l) = skipWS l := by
  simp [skipWS, List.dropWhile_cons_of_pos h]

theorem skipWS_idem (s : Str) : skipWS (skipWS s) = skipWS s := by
  cases h : skipWS s with
  | nil => rfl
  | cons c t =>
    have hc : jsonWSChar c = false := dropWhile_head_false jsonWSChar s c t h
    exact skipWS_cons c t hc

theorem pm_skipWS (g : Nat) (s : Str) : parseMembers (g+1) (skipWS s) = parseMembers (g+1) s := by
  rw [parseMembers, parseMembers, skipWS_idem]

theorem pob_to_members (fuel : Nat) (s : Str) (c : Char) (rest : Str)
    (h : skipWS s = c :: rest) (hc : c ≠ rbrace) :
    parseObjBody (fuel+1) s = (parseMembers fuel (c :: rest)).map (fun p => (Json.jobj p.1, p.2)) := by
  rw [parseObjBody, h]
  simp only [if_neg hc]

theorem parseMembers_indent (d : List (Str × Str)) :
    ∀ (k v : Str) (fuel : Nat) (rest : Str), 2 * d.length + 2 ≤ fuel →
      parseMembers fuel (dumpsIndentMembers ((k, v) :: d) ++ rest) =
        some (((k, v) :: d).map (fun kv => (kv.1, Json.jstr kv.2)), rest) := by
  induction d with
  | nil =>
    intro k v fuel rest hfuel
    obtain ⟨f, rfl⟩ : ∃ f, fuel = (f + 1) + 1 := ⟨fuel - 2, by omega⟩
    have hshape : dumpsIndentMembers [(k, v)] ++ rest =
        '\n' :: ' ' :: ' ' :: ('"' :: ((k.map escapeChar).flatten ++ '"' ::
          (':' :: ' ' :: (renderStr v ++ ('\n' :: rbrace :: rest))))) := by
      show ('\n' :: ' ' :: ' ' :: (renderStr k ++ ':' :: ' ' :: renderStr v) ++
        ['\n', rbrace]) ++ rest = _
      simp [renderStr]
    rw [hshape]
    rw [pm_ws1 _ _ _ (by decide), pm_ws1 _ _ _ (by decide), pm_ws1 _ _ _ (by decide)]
    have hv2 : parseValue (f + 1) (' ' :: (renderStr v ++ ('\n' :: rbrace :: rest))) =
        some (Json.jstr v, '\n' :: rbrace :: rest) := by
      rw [pv_ws1 _ _ _ (by decide)]
      exact parseValue_scalar (Json.jstr v) f ('\n' :: rbrace :: rest) (by rfl) (by rfl)
    rw [pm_full (f + 1) _ k _ (' ' :: (renderStr v ++ ('\n' :: rbrace :: rest))) rest rbrace
      (Json.jstr v) ('\n' :: rbrace :: rest) (parseStringBody_render k _)
      (skipWS_cons _ _ (by decide)) hv2
      (by rw [skipWS_ws_cons _ _ (by decide)]; exact skipWS_cons _ _ (by decide))]
    rw [if_neg (by decide), if_pos rfl]
    rfl
  | cons x t ih =>
    intro k v fuel rest hfuel
    obtain ⟨f, rfl⟩ : ∃ f, fuel = (f + 1) + 1 := ⟨fuel - 2, by omega⟩
    obtain ⟨k2, v2⟩ := x
    have hshape : dumpsIndentMembers ((k, v) :: (k2, v2) :: t) ++ rest =
        '\n' :: ' ' :: ' ' :: ('"' :: ((k.map escapeChar).flatten ++ '"' ::
          (':' :: ' ' :: (renderStr v ++
            (',' :: (dumpsIndentMembers ((k2, v2) :: t) ++ rest)))))) := by
      show ('\n' :: ' ' :: ' ' :: (renderStr k ++ ':' :: ' ' :: renderStr v) ++
        (',' :: dumpsIndentMembers ((k2, v2) :: t))) ++ rest = _
      simp [renderStr]
    rw [hshape]
    rw [pm_ws1 _ _ _ (by decide), pm_ws1 _ _ _ (by decide), pm_ws1 _ _ _ (by decide)]
    have hv2 : parseValue (f + 1)
        (' ' :: (renderStr v ++ (',' :: (dumpsIndentMembers ((k2, v2) :: t) ++ rest)))) =
        some (Json.jstr v, ',' :: (dumpsIndentMembers ((k2, v2) :: t) ++ rest)) := by
      rw [pv_ws1 _ _ _ (by decide)]
      exact parseValue_scalar (Json.jstr v) f _ (by rfl) (by rfl)
    rw [pm_full (f + 1) _ k _ (' ' :: (renderStr v ++
        (',' :: (dumpsIndentMembers ((k2, v2) :: t) ++ rest)))) _ ','
      (Json.jstr v) (',' :: (dumpsIndentMembers ((k2, v2) :: t) ++ rest))
      (parseStringBody_render k _) (skipWS_cons _ _ (by decide)) hv2
      (skipWS_cons _ _ (by decide))]
    rw [if_pos rfl]
    rw [ih k2 v2 (f + 1) rest (by simp at hfuel ⊢; omega)]
    rfl

theorem dumpsIndentMembers_length (t : List (Str × Str)) :
    ∀ (k v : Str), 2 * t.length + 3 ≤ (dumpsIndentMembers ((k, v) :: t)).length := by
  induction t with
  | nil =>
    intro k v
    show 2 * ([] : List (Str × Str)).length + 3 ≤
      (('\n' :: ' ' :: ' ' :: (renderStr k ++ ':' :: ' ' :: renderStr v) ++
        ['\n', rbrace])).length
    have h1 := renderStr_length k
    have h2 := renderStr_length v
    simp only [List.length_append, List.length_cons, List.length_nil]
    omega
  | cons x t2 ih =>
    intro k v
    obtain ⟨k2, v2⟩ := x
    show 2 * ((k2, v2) :: t2).length + 3 ≤
      (('\n' :: ' ' :: ' ' :: (renderStr k ++ ':' :: ' ' :: renderStr v) ++
        (',' :: dumpsIndentMembers ((k2, v2) :: t2)))).length
    have := ih k2 v2
    have h1 := renderStr_length k
    have h2 := renderStr_length v
    simp only [List.length_append, List.length_cons] at this ⊢
    omega

theorem dumpsIndentMembers_shape (k v : Str) (t : List (Str × Str)) :
    ∃ TAIL, dumpsIndentMembers ((k, v) :: t) =
      '\n' :: ' ' :: ' ' :: ((renderStr k ++ ':' :: ' ' :: renderStr v) ++ TAIL) := by
  cases t with
  | nil => exact ⟨['\n', rbrace], rfl⟩
  | cons x t2 => exact ⟨',' :: dumpsIndentMembers (x :: t2), rfl⟩

theorem pob_ws1 (fuel : Nat) (c : Char) (s : Str) (h : jsonWSChar c = true) :
    parseObjBody (fuel+1) (c :: s) = parseObjBody (fuel+1) s := by
  rw [parseObjBody, parseObjBody,
    show skipWS (c :: s) = skipWS s from by simp [skipWS, List.dropWhile_cons_of_pos h]]

theorem normalizeMapping_jstr (d : List (Str × Str)) :
    normalizeMapping (d.map (fun kv => (kv.1, Json.jstr kv.2))) = d := by
  induction d with
  | nil => rfl
  | cons x t ih =>
    obtain ⟨k, v⟩ := x
    show (k, if (Json.jstr v).isNull then [] else pyStrOfJson (Json.jstr v)) ::
      normalizeMapping (t.map (fun kv => (kv.1, Json.jstr kv.2))) = (k, v) :: t
    rw [ih]
    rfl

theorem keys_map_jstr (d : List (Str × Str)) :
    (d.map (fun kv => (kv.1, Json.jstr kv.2))).map Prod.fst = d.map Prod.fst := by
  induction d with
  | nil => rfl
  | cons x t ih => simp [ih]

theorem jsonParse_indent (k v : Str) (t : List (Str × Str)) :
    jsonParse (dumpsIndent2 ((k, v) :: t)) =
      some (Json.jobj (((k, v) :: t).map (fun kv => (kv.1, Json.jstr kv.2)))) := by
  obtain ⟨TAIL, hTAIL⟩ := dumpsIndentMembers_shape k v t
  have hlen := dumpsIndentMembers_length t k v
  have hexpose : (renderStr k ++ ':' :: ' ' :: renderStr v) ++ TAIL =
      '"' :: ((k.map escapeChar).flatten ++ '"' :: (':' :: ' ' :: (renderStr v ++ TAIL))) := by
    simp [renderStr]
  have hskip : skipWS (dumpsIndentMembers ((k, v) :: t)) =
      (renderStr k ++ ':' :: ' ' :: renderStr v) ++ TAIL := by
    rw [hTAIL, skipWS_ws_cons _ _ (by decide), skipWS_ws_cons _ _ (by decide),
      skipWS_ws_cons _ _ (by decide), hexpose]
    exact skipWS_cons _ _ (by decide)
  have hobj : ∀ f : Nat, 2 * t.length + 2 ≤ f →
      parseObjBody (f + 1) (dumpsIndentMembers ((k, v) :: t)) =
        some (Json.jobj (((k, v) :: t).map (fun kv => (kv.1, Json.jstr kv.2))), []) := by
    intro f hf
    rw [hTAIL]
    rw [pob_ws1 _ _ _ (by decide), pob_ws1 _ _ _ (by decide), pob_ws1 _ _ _ (by decide)]
    rw [hexpose]
    rw [pob_to_members f _ '"' _ (skipWS_cons _ _ (by decide)) (by decide)]
    rw [← hexpose]
    rw [show (renderStr k ++ ':' :: ' ' :: renderStr v) ++ TAIL =
        skipWS (dumpsIndentMembers ((k, v) :: t)) from hskip.symm]
    obtain ⟨g, rfl⟩ : ∃ g, f = g + 1 := ⟨f - 1, by omega⟩
    rw [pm_skipWS g (dumpsIndentMembers ((k, v) :: t))]
    rw [show dumpsIndentMembers ((k, v) :: t) = dumpsIndentMembers ((k, v) :: t) ++ [] from
      (List.append_nil _).symm]
    rw [parseMembers_indent t k v (g + 1) [] (by omega)]
    rfl
  rw [show dumpsIndent2 ((k, v) :: t) = lbrace :: dumpsIndentMembers ((k, v) :: t) from rfl]
  rw [jsonParse]
  rw [show (lbrace :: dumpsIndentMembers ((k, v) :: t)).length + 1 =
      ((dumpsIndentMembers ((k, v) :: t)).length + 1) + 1 from by simp]
  rw [pv_obj ((dumpsIndentMembers ((k, v) :: t)).length + 1) (dumpsIndentMembers ((k, v) :: t))]
  rw [hobj ((dumpsIndentMembers ((k, v) :: t)).length) (by omega)]
  rfl

theorem from_json_indent (d : List (Str × Str)) (hnd : (d.map Prod.fst).Nodup) :
    ProfileData.from_json (dumpsIndent2 d) = .ok ⟨d⟩ := by
  cases d with
  | nil => rfl
  | cons x t =>
    obtain ⟨k, v⟩ := x
    rw [ProfileData.from_json, jsonParse_indent k v t]
    show Except.ok (ProfileData.mk (normalizeMapping (pyDictOfPairs
      (((k, v) :: t).map (fun kv => (kv.1, Json.jstr kv.2)))))) =
      Except.ok (ProfileData.mk ((k, v) :: t))
    rw [pyDictOfPairs_nodup _ (by rw [keys_map_jstr]; exact hnd)]
    rw [normalizeMapping_jstr]

/-! ## Claim C3: drop decoding degrades to the plain-text channel -/

/-- C3: decoding a drag transfer never fails outward: whenever the
structured payload is absent, or its bytes are not UTF-8, or the decoded
text is not JSON, or the parsed value is not an object (so the
`payload.get` calls raise and the handler swallows the exception), the
decoded pair is the fallback (empty key, the transfer's plain text). -/
theorem c3_drop_decode_fallback (md : MimeData)
    (h : md.profileField = none ∨
      (∃ bs, md.profileField = some bs ∧
        (utf8Decode bs = none ∨
         (∃ s, utf8Decode bs = some s ∧ jsonParse s = none) ∨
         (∃ s v, utf8Decode bs = some s ∧ jsonParse s = some v ∧ v.isObj = false)))) :
    dropDecode md = (Json.jstr [], Json.jstr md.text) := by
  rcases h with h | ⟨bs, hbs, hfail⟩
  · simp only [dropDecode, h]
  · rcases hfail with hu | ⟨s, hs, hj⟩ | ⟨s, v, hs, hj, hv⟩
    · simp only [dropDecode, hbs, hu]
    · simp only [dropDecode, hbs, hs, hj]
    · simp only [dropDecode, hbs, hs, hj]
      cases v with
      | jobj kvs => simp [Json.isObj] at hv
      | jstr s2 => rfl
      | jint n => rfl
      | jbool b => rfl
      | jnull => rfl
      | jarr xs => rfl

/-- C3 witness: a transfer carrying only the plain text "hello" decodes
to the empty key and "hello". -/
theorem c3_witness :
    dropDecode { text := "hello".data, profileField := none } =
      (Json.jstr [], Json.jstr ("hello".data)) :=
  c3_drop_decode_fallback { text := "hello".data, profileField := none } (Or.inl rfl)

/-! ## Claim C4: codec round trip -/

/-- C4: decoding the transfer built by `startDrag` for `(k, v)` yields
exactly `(k, v)`, for all strings; in particular for
`("email", "a@b.com")`. -/
theorem c4_codec_roundtrip :
    (∀ k v : Str, dropDecode (startDragMime k v) = (Json.jstr k, Json.jstr v)) ∧
    dropDecode (startDragMime ("email".data) ("a@b.com".data)) =
      (Json.jstr ("email".data), Json.jstr ("a@b.com".data)) := by
  have main : ∀ k v : Str, dropDecode (startDragMime k v) = (Json.jstr k, Json.jstr v) := by
    intro k v
    have hsc : ∀ kv ∈ [(("key".data : Str), Json.jstr k), (("value".data : Str), Json.jstr v)],
        kv.2.isScalar = true := by
      intro kv hkv
      rcases List.mem_cons.mp hkv with rfl | hkv2
      · rfl
      · rcases List.mem_cons.mp hkv2 with rfl | hkv3
        · rfl
        · simp at hkv3
    have hp := jsonParse_dumpsFlat [("key".data, Json.jstr k), ("value".data, Json.jstr v)] hsc
    have hd : pyDictOfPairs [(("key".data : Str), Json.jstr k), (("value".data : Str), Json.jstr v)] =
        [("key".data, Json.jstr k), ("value".data, Json.jstr v)] := by
      apply pyDictOfPairs_nodup
      rw [show (List.map Prod.fst [(("key".data : Str), Json.jstr k),
        (("value".data : Str), Json.jstr v)]) = [("key".data : Str), "value".data] from rfl]
      decide
    simp only [dropDecode, startDragMime, utf8Decode_encode, hp, hd]
    rw [pyDictGet_cons_hit _ _ _ (by rfl)]
    rw [pyDictGet_cons_miss _ _ _ (by rfl), pyDictGet_cons_hit _ _ _ (by rfl)]
    rfl
  exact ⟨main, main _ _⟩

/-! ## Claim C5: the url merge on save -/

/-- C5: the dict produced for saving binds `"url"` to the trimmed URL
field (overwriting any prior entry, even when the trimmed text is
empty), leaves every other key's value unchanged, and — when the record
has no `"url"` key — equals the original fields with `("url", trimmed)`
appended at the end. -/
theorem c5_save_merge (st : AppState) (p : ProfileData) (hst : st.profile = some p) :
    pyDictGet (current_profile_dict st) ("url".data) = some (pyStrip st.urlField) ∧
    (∀ k2, k2 ≠ "url".data →
      pyDictGet (current_profile_dict st) k2 = pyDictGet p.raw k2) ∧
    (hasKey p.raw ("url".data) = false →
      current_profile_dict st = p.raw ++ [("url".data, pyStrip st.urlField)]) := by
  have hcur : current_profile_dict st = pyDictSet p.raw ("url".data) (pyStrip st.urlField) := by
    simp only [current_profile_dict, hst]
  refine ⟨?_, ?_, ?_⟩
  · rw [hcur]
    exact pyDictGet_set_same p.raw ("url".data) (pyStrip st.urlField)
  · intro k2 hk2
    rw [hcur]
    exact pyDictGet_set_other p.raw ("url".data) (pyStrip st.urlField) k2 hk2
  · intro hfresh
    rw [hcur]
    exact pyDictSet_fresh p.raw ("url".data) (pyStrip st.urlField) hfresh

/-- C5 witness: saving with url field "test.com" on a record without a
"url" key appends exactly `("url", "test.com")`. -/
theorem c5_witness :
    current_profile_dict
      { profile := some ⟨[("name".data, "Ann".data)]⟩, urlField := "test.com".data,
        safeItemsList := [], forbiddenLines := [], dropPadLines := [] } =
      [("name".data, "Ann".data), ("url".data, "test.com".data)] := by
  rw [(c5_save_merge
    { profile := some ⟨[("name".data, "Ann".data)]⟩, urlField := "test.com".data,
      safeItemsList := [], forbiddenLines := [], dropPadLines := [] }
    ⟨[("name".data, "Ann".data)]⟩ rfl).2.2 (by decide)]
  decide

/-! ## Claim C6: parse failure classification and atomic loads -/

/-- C6: `from_json` fails exactly when the text is not valid JSON or
its top-level value is not an object, and a failed load leaves the
state untouched. -/
theorem c6_parse_failure_atomic (text : Str) (st : AppState) :
    ((∃ e, ProfileData.from_json text = Except.error e) ↔
      (jsonParse text = none ∨ ∃ v, jsonParse text = some v ∧ v.isObj = false)) ∧
    (∀ e, ProfileData.from_json text = Except.error e → load_json st text = st) := by
  constructor
  · cases hjp : jsonParse text with
    | none =>
      constructor
      · intro _
        exact Or.inl rfl
      · intro _
        exact ⟨ParseFailure.decodeErr, by simp only [ProfileData.from_json, hjp]⟩
    | some v =>
      cases v with
      | jobj kvs =>
        constructor
        · rintro ⟨e, he⟩
          simp only [ProfileData.from_json, hjp] at he
          exact Except.noConfusion he
        · rintro (h | ⟨v2, hv2, hobj⟩)
          · exact Option.noConfusion h
          · cases Option.some.inj hv2
            simp [Json.isObj] at hobj
      | jstr s =>
        exact ⟨fun _ => Or.inr ⟨Json.jstr s, rfl, rfl⟩,
          fun _ => ⟨ParseFailure.notObject, by simp only [ProfileData.from_json, hjp]⟩⟩
      | jint n =>
        exact ⟨fun _ => Or.inr ⟨Json.jint n, rfl, rfl⟩,
          fun _ => ⟨ParseFailure.notObject, by simp only [ProfileData.from_json, hjp]⟩⟩
      | jbool b =>
        exact ⟨fun _ => Or.inr ⟨Json.jbool b, rfl, rfl⟩,
          fun _ => ⟨ParseFailure.notObject, by simp only [ProfileData.from_json, hjp]⟩⟩
      | jnull =>
        exact ⟨fun _ => Or.inr ⟨Json.jnull, rfl, rfl⟩,
          fun _ => ⟨ParseFailure.notObject, by simp only [ProfileData.from_json, hjp]⟩⟩
      | jarr xs =>
        exact ⟨fun _ => Or.inr ⟨Json.jarr xs, rfl, rfl⟩,
          fun _ => ⟨ParseFailure.notObject, by simp only [ProfileData.from_json, hjp]⟩⟩
  · intro e he
    simp only [load_json, he]

/-- C6 witness: loading the non-JSON text "nonsense" reports a decode
failure and leaves a concrete state unchanged. -/
theorem c6_witness :
    load_json
      { profile := some ⟨[("name".data, "Ann".data)]⟩, urlField := "x".data,
        safeItemsList := [], forbiddenLines := [], dropPadLines := [] }
      ("nonsense".data) =
      { profile := some ⟨[("name".data, "Ann".data)]⟩, urlField := "x".data,
        safeItemsList := [], forbiddenLines := [], dropPadLines := [] } :=
  (c6_parse_failure_atomic ("nonsense".data)
    { profile := some ⟨[("name".data, "Ann".data)]⟩, urlField := "x".data,
      safeItemsList := [], forbiddenLines := [], dropPadLines := [] }).2
    ParseFailure.decodeErr (by rfl)

/-! ## Claim C7: one normalization rule everywhere -/

/-- C7: the two dict comprehensions (parse path, line 43, and
construct-from-mapping path, line 282) are the same function; and for
every object with scalar (string/number/bool/null) values and unique
keys, parsing its serialized form yields exactly the fields given by
that rule — nulls to the empty string, every other value to its string
form — while the construct path installs the same normalized record. -/
theorem c7_normalization_rule :
    (∀ d : List (Str × Json), normalizeMapping d = populateMapping d) ∧
    (∀ O : List (Str × Json), (O.map Prod.fst).Nodup →
      (∀ kv ∈ O, kv.2.isScalar = true) →
      ProfileData.from_json (dumpsJson (Json.jobj O)) = Except.ok ⟨normalizeMapping O⟩ ∧
      ∀ st : AppState, (populate_from_dict st O).profile = some ⟨populateMapping O⟩) := by
  constructor
  · intro d
    rfl
  · intro O hnd hsc
    constructor
    · rw [ProfileData.from_json, jsonParse_dumpsFlat O hsc]
      show Except.ok (ProfileData.mk (normalizeMapping (pyDictOfPairs O))) =
        Except.ok (ProfileData.mk (normalizeMapping O))
      rw [pyDictOfPairs_nodup O hnd]
    · intro st
      rfl

/-- C7 witness: a concrete mapping with a null, a boolean and a string
value round-trips into the normalized fields. -/
theorem c7_witness :
    ProfileData.from_json (dumpsJson (Json.jobj
      [("a".data, Json.jnull), ("c".data, Json.jbool true), ("d".data, Json.jstr ("x".data))])) =
      Except.ok ⟨[("a".data, []), ("c".data, "True".data), ("d".data, "x".data)]⟩ := by
  rw [(c7_normalization_rule.2
    [("a".data, Json.jnull), ("c".data, Json.jbool true), ("d".data, Json.jstr ("x".data))]
    (by decide) (by decide)).1]
  rfl

/-! ## Claim C8: serialize/parse round trip -/

/-- C8: for every profile record (values are strings in this model,
keys unique as in any dict), parsing the indent-2 serialized form
gives back exactly the record. -/
theorem c8_serialize_roundtrip (r : ProfileData) (h : (r.raw.map Prod.fst).Nodup) :
    ProfileData.from_json (dumpsIndent2 r.raw) = Except.ok r := by
  rw [from_json_indent r.raw h]

/-- C8 witness: a concrete two-field record round-trips. -/
theorem c8_witness :
    ProfileData.from_json (dumpsIndent2 [("name".data, "Ann".data), ("url".data, "u".data)]) =
      Except.ok ⟨[("name".data, "Ann".data), ("url".data, "u".data)]⟩ :=
  c8_serialize_roundtrip ⟨[("name".data, "Ann".data), ("url".data, "u".data)]⟩ (by decide)

/-! ## Claim C9: the Open-URL action -/

/-- C9: for a non-empty trimmed URL field, the opener is handed the
trimmed text unchanged when its lowercase form starts with `http://` or
`https://`, and `https://` prepended to it otherwise. -/
theorem c9_open_url (st : AppState) (h : pyStrip st.urlField ≠ []) :
    (((∃ u, pyLower (pyStrip st.urlField) = ("http://".data) ++ u) ∨
      (∃ u, pyLower (pyStrip st.urlField) = ("https://".data) ++ u)) →
        open_url st = some (pyStrip st.urlField)) ∧
    (¬ ((∃ u, pyLower (pyStrip st.urlField) = ("http://".data) ++ u) ∨
        (∃ u, pyLower (pyStrip st.urlField) = ("https://".data) ++ u)) →
        open_url st = some (("https://".data) ++ pyStrip st.urlField)) := by
  constructor
  · intro hs
    have hb : ((eatLit ("http://".data) (pyLower (pyStrip st.urlField))).isSome ||
        (eatLit ("https://".data) (pyLower (pyStrip st.urlField))).isSome) = true := by
      rcases hs with ⟨u, hu⟩ | ⟨u, hu⟩
      · apply Bool.or_eq_true_iff.mpr
        exact Or.inl ((eatLit_isSome_iff _ _).mpr ⟨u, hu⟩)
      · apply Bool.or_eq_true_iff.mpr
        exact Or.inr ((eatLit_isSome_iff _ _).mpr ⟨u, hu⟩)
    rw [open_url]
    simp only [if_neg h, hb, if_pos]
  · intro hs
    have hb : ((eatLit ("http://".data) (pyLower (pyStrip st.urlField))).isSome ||
        (eatLit ("https://".data) (pyLower (pyStrip st.urlField))).isSome) = false := by
      rw [Bool.or_eq_false_iff]
      constructor
      · rw [Bool.eq_false_iff]
        intro hx
        exact hs (Or.inl ((eatLit_isSome_iff _ _).mp hx))
      · rw [Bool.eq_false_iff]
        intro hx
        exact hs (Or.inr ((eatLit_isSome_iff _ _).mp hx))
    rw [open_url]
    simp only [if_neg h, hb, Bool.false_eq_true, if_false]

/-- C9 witness: with the URL field "www.example.com" the opener is
asked to open "https://www.example.com". -/
theorem c9_witness :
    open_url
      { profile := none, urlField := "www.example.com".data,
        safeItemsList := [], forbiddenLines := [], dropPadLines := [] } =
      some ("https://www.example.com".data) := by
  rw [(c9_open_url
    { profile := none, urlField := "www.example.com".data,
      safeItemsList := [], forbiddenLines := [], dropPadLines := [] } (by decide)).2 (by
    rintro (⟨u, hu⟩ | ⟨u, hu⟩)
    · exact absurd ((eatLit_isSome_iff _ _).mpr ⟨u, hu⟩) (by decide)
    · exact absurd ((eatLit_isSome_iff _ _).mpr ⟨u, hu⟩) (by decide))]
  decide

/-! ## Claim C10: url prefill on load -/

/-- C10 (implicit behavior): on every successful load the URL field is
set to the value stored under "url" with surrounding whitespace
stripped, and to the empty string when the key is absent
(`prof.raw.get("url", "").strip()`). -/
theorem c10_url_prefill (st : AppState) (text : Str) (prof : ProfileData)
    (h : ProfileData.from_json text = Except.ok prof) :
    (load_json st text).urlField =
      pyStrip ((pyDictGet prof.raw ("url".data)).getD []) := by
  simp only [load_json, h]
  rfl

/-- C10 witness: loading a file whose "url" value is " example.com "
prefills the field with "example.com". -/
theorem c10_witness :
    (load_json
      { profile := none, urlField := [], safeItemsList := [], forbiddenLines := [],
        dropPadLines := [] }
      (('\x7b' :: ("\"url\": \" example.com \"".data)) ++ ['\x7d'])).urlField =
      "example.com".data := by
  rw [c10_url_prefill
    { profile := none, urlField := [], safeItemsList := [], forbiddenLines := [],
      dropPadLines := [] }
    (('\x7b' :: ("\"url\": \" example.com \"".data)) ++ ['\x7d'])
    ⟨[("url".data, " example.com ".data)]⟩ (by rfl)]
  decide

/-- C1 witness: the key " Z " normalizes to "z" and is rejected. -/
theorem c1_witness : is_forbidden_key (" Z ".data) = true :=
  (c1_is_forbidden_iff_normalized_z (" Z ".data)).mpr (by decide)

/-- C2 witness: on a record holding a "z" field and an "a" field, the
pair ("a", "2") sits in the safe list and therefore not in the
forbidden list. -/
theorem c2_witness :
    ¬ (("a".data, "2".data) ∈ (ProfileData.mk
      [("z".data, "1".data), ("a".data, "2".data)]).forbidden_items) :=
  fun hf => (c2_safe_forbidden_partition
    (ProfileData.mk [("z".data, "1".data), ("a".data, "2".data)])).2.2.2.2
    ("a".data) ("2".data) ("2".data) (by decide) hf
